import Mathlib

/-!
Verification of the temperature-analysis engine (`temp_analysis.py`).

The engine operates on an in-memory daily series: one row per date with
numeric columns TMAX, TMIN, TAVG.  Rows are sorted ascending by date and
indexed 0..N-1; analyses operate on row positions (iloc indices) of that
sorted frame.  We embed each analysis as a pure function over a
`List DayRec` (the cleaned frame) or over a `List ℚ` (one metric column),
following the source line by line.  Temperatures are modelled as exact
rationals.  Sorting helpers in pandas/numpy (`sort_values`,
`np.argsort` with `ascending=False` realised as a reversed ascending
argsort) are modelled by `List.insertionSort` (a stable ascending sort)
followed by `List.reverse` where the source reverses.
-/

namespace TempAnalysis

/-- Metric column selector, `metric ∈ \x7bTMIN, TMAX, TAVG\x7d` in the source. -/
inductive Metric
  | tmax
  | tmin
  | tavg
deriving DecidableEq, Repr

/-- Threshold direction, `direction ∈ \x7babove, below\x7d` in the source. -/
inductive Direction
  | above
  | below
deriving DecidableEq, Repr

/-- Extreme kind, `extreme ∈ \x7bcoldest, warmest\x7d` in the source. -/
inductive Extreme
  | coldest
  | warmest
deriving DecidableEq, Repr

/-- A calendar date, as exposed by the `DATE` column accessors
`dt.year`, `dt.month`, `dt.day` in the source. -/
structure Date where
  year : Nat
  month : Nat
  day : Nat
deriving DecidableEq, Repr

/-- One row of the cleaned frame `self.df`: a date plus the three
temperature columns (TAVG filled at load time, see `tavgAfterLoad`). -/
structure DayRec where
  date : Date
  tmax : ℚ
  tmin : ℚ
  tavg : ℚ
deriving DecidableEq, Repr

/-- Column access `self.df[metric]` for one row. -/
def DayRec.val (m : Metric) (r : DayRec) : ℚ :=
  match m with
  | .tmax => r.tmax
  | .tmin => r.tmin
  | .tavg => r.tavg

/-- Threshold test used throughout the source:
`df[metric] >= threshold` for direction `above`,
`df[metric] <= threshold` for direction `below`. -/
def meetsThreshold (direction : Direction) (threshold v : ℚ) : Bool :=
  match direction with
  | .above => threshold ≤ v
  | .below => v ≤ threshold

/-! ### Calendar Range Resolver

Embeds the shared year-boundary logic of `find_extreme_date_range`
(temp_analysis.py lines 274-294) and `threshold_histogram`
(lines 341-358); `calculate_daily_records` and `get_year_overlay_data`
repeat the same mask. -/

/-- Source: `spans_year = (start_month > end_month) or
(start_month == end_month and start_day > end_day)`. -/
def spansYear (startMonth startDay endMonth endDay : Nat) : Bool :=
  startMonth > endMonth || (startMonth == endMonth && startDay > endDay)

/-- Source: `(df.month > start_month) | ((df.month == start_month) & (df.day >= start_day))`. -/
def inStartPortion (startMonth startDay month day : Nat) : Bool :=
  month > startMonth || (month == startMonth && day ≥ startDay)

/-- Source: `(df.month < end_month) | ((df.month == end_month) & (df.day <= end_day))`. -/
def inEndPortion (endMonth endDay month day : Nat) : Bool :=
  month < endMonth || (month == endMonth && day ≤ endDay)

/-- The membership mask of the calendar range resolver: for year-spanning
ranges the start-portion and end-portion conditions are joined with `|`,
otherwise with `&`. -/
def rangeMask (sm sd em ed month day : Nat) : Bool :=
  if spansYear sm sd em ed then
    inStartPortion sm sd month day || inEndPortion em ed month day
  else
    inStartPortion sm sd month day && inEndPortion em ed month day

/-- Source: `row.year if (row.month > start_month or (row.month ==
start_month and row.day >= start_day)) else row.year - 1` for spanning
ranges, and `df.year` otherwise. -/
def rangeYear (sm sd em ed : Nat) (dt : Date) : Int :=
  if spansYear sm sd em ed then
    if inStartPortion sm sd dt.month dt.day then (dt.year : Int)
    else (dt.year : Int) - 1
  else (dt.year : Int)

/-- The record set `range_df` (with its `range_year` column) that both
`find_extreme_date_range` and `threshold_histogram` aggregate over:
rows passing `rangeMask`, each paired with its `rangeYear`. -/
def rangeFilter (sm sd em ed : Nat) (rs : List DayRec) : List (DayRec × Int) :=
  (rs.filter (fun r => rangeMask sm sd em ed r.date.month r.date.day)).map
    (fun r => (r, rangeYear sm sd em ed r.date))

/-- Spec-side definition (for comparison with the source): the spec
phrases range membership as lexicographic comparison of (month, day)
pairs.  `specLexGe m d m2 d2` says (m, d) ≥ (m2, d2) lexicographically. -/
def specLexGe (m d m2 d2 : Nat) : Prop :=
  m2 < m ∨ (m = m2 ∧ d2 ≤ d)

/-- Spec-side definition: (m, d) ≤ (m2, d2) lexicographically. -/
def specLexLe (m d m2 d2 : Nat) : Prop :=
  m < m2 ∨ (m = m2 ∧ d ≤ d2)

lemma inStartPortion_iff (sm sd m d : Nat) :
    inStartPortion sm sd m d = true ↔ specLexGe m d sm sd := by
  simp only [inStartPortion, specLexGe, Bool.or_eq_true, decide_eq_true_eq,
    Bool.and_eq_true, beq_iff_eq]

lemma inEndPortion_iff (em ed m d : Nat) :
    inEndPortion em ed m d = true ↔ specLexLe m d em ed := by
  simp only [inEndPortion, specLexLe, Bool.or_eq_true, decide_eq_true_eq,
    Bool.and_eq_true, beq_iff_eq]

lemma mem_rangeFilter_iff (sm sd em ed : Nat) (rs : List DayRec) (r : DayRec) (y : Int) :
    (r, y) ∈ rangeFilter sm sd em ed rs ↔
      r ∈ rs ∧ rangeMask sm sd em ed r.date.month r.date.day = true ∧
        y = rangeYear sm sd em ed r.date := by
  simp only [rangeFilter, List.mem_map, List.mem_filter, Prod.mk.injEq]
  constructor
  · rintro ⟨s, ⟨hs, hmask⟩, rfl, rfl⟩
    exact ⟨hs, hmask, rfl⟩
  · rintro ⟨hr, hmask, rfl⟩
    exact ⟨r, ⟨hr, hmask⟩, rfl, rfl⟩

/-- Claim C1: for a range classified as spanning a year boundary
(start_month > end_month, or equal months with start_day > end_day),
`find_extreme_date_range` and `threshold_histogram` include a record iff
its (month, day) is lexicographically ≥ (start_month, start_day) or ≤
(end_month, end_day); the record is assigned `range_year` equal to its
calendar year when (month, day) ≥ (start_month, start_day) and calendar
year − 1 otherwise.  In particular a Jan 5 record against the range
Dec 15 - Jan 15 gets `range_year` = that January's calendar year − 1. -/
theorem c1_spanning_range_membership_and_year
    (sm sd em ed : Nat) (h : spansYear sm sd em ed = true)
    (rs : List DayRec) (r : DayRec) :
    ((r, rangeYear sm sd em ed r.date) ∈ rangeFilter sm sd em ed rs ↔
        r ∈ rs ∧ (specLexGe r.date.month r.date.day sm sd ∨
                  specLexLe r.date.month r.date.day em ed)) ∧
    (specLexGe r.date.month r.date.day sm sd →
        rangeYear sm sd em ed r.date = (r.date.year : Int)) ∧
    (¬ specLexGe r.date.month r.date.day sm sd →
        rangeYear sm sd em ed r.date = (r.date.year : Int) - 1) ∧
    rangeYear 12 15 1 15 ⟨2021, 1, 5⟩ = 2020 := by
  refine ⟨?_, ?_, ?_, by decide⟩
  · rw [mem_rangeFilter_iff]
    simp only [rangeMask, h, if_true, Bool.or_eq_true, inStartPortion_iff, inEndPortion_iff,
      and_true]
  · intro hge
    simp only [rangeYear, h, if_true, (inStartPortion_iff sm sd _ _).mpr hge]
  · intro hge
    have hfalse : inStartPortion sm sd r.date.month r.date.day = false := by
      rw [Bool.eq_false_iff]
      intro hb
      exact hge ((inStartPortion_iff sm sd _ _).mp hb)
    simp only [rangeYear, h, if_true, hfalse, Bool.false_eq_true, if_false]

/-- Witness for C1: the range Dec 15 - Jan 15 spans a year boundary, and
the theorem applies to a concrete one-record series dated 2021-01-05. -/
theorem c1_witness :
    spansYear 12 15 1 15 = true ∧
    (((⟨⟨2021, 1, 5⟩, 40, 20, 30⟩ : DayRec),
        rangeYear 12 15 1 15 (⟨2021, 1, 5⟩ : Date)) ∈
          rangeFilter 12 15 1 15 [⟨⟨2021, 1, 5⟩, 40, 20, 30⟩] ↔
        (⟨⟨2021, 1, 5⟩, 40, 20, 30⟩ : DayRec) ∈ [(⟨⟨2021, 1, 5⟩, 40, 20, 30⟩ : DayRec)] ∧
          (specLexGe 1 5 12 15 ∨ specLexLe 1 5 1 15)) ∧
    (¬ specLexGe 1 5 12 15 → rangeYear 12 15 1 15 ⟨2021, 1, 5⟩ = (2021 : Int) - 1) :=
  have h := c1_spanning_range_membership_and_year 12 15 1 15 (by decide)
    [⟨⟨2021, 1, 5⟩, 40, 20, 30⟩] ⟨⟨2021, 1, 5⟩, 40, 20, 30⟩
  ⟨by decide, h.1, h.2.2.1⟩

/-! ### Calendar arithmetic

The source obtains `month`, `day`, `year` and `dayofyear` from pandas
datetime accessors; we realise `dayofyear` from the Gregorian calendar. -/

/-- Gregorian leap-year rule (as used by pandas datetime). -/
def isLeap (y : Nat) : Bool :=
  y % 4 == 0 && (y % 100 != 0 || y % 400 == 0)

/-- Length of a month (1-12); 0 for out-of-range month numbers. -/
def daysInMonth (leap : Bool) (m : Nat) : Nat :=
  match m with
  | 1 => 31
  | 2 => if leap then 29 else 28
  | 3 => 31
  | 4 => 30
  | 5 => 31
  | 6 => 30
  | 7 => 31
  | 8 => 31
  | 9 => 30
  | 10 => 31
  | 11 => 30
  | 12 => 31
  | _ => 0

/-- Days in the year strictly before month `m`. -/
def daysBefore (leap : Bool) (m : Nat) : Nat :=
  ((List.range (m - 1)).map (fun k => daysInMonth leap (k + 1))).sum

/-- Day of year of (month, day), the pandas `dt.dayofyear` accessor. -/
def dayOfYear (leap : Bool) (m d : Nat) : Nat :=
  daysBefore leap m + d

/-- Day of year of a date. -/
def Date.doy (dt : Date) : Nat :=
  dayOfYear (isLeap dt.year) dt.month dt.day

/-- A well-formed calendar date. -/
def validDate (dt : Date) : Prop :=
  1 ≤ dt.month ∧ dt.month ≤ 12 ∧ 1 ≤ dt.day ∧
    dt.day ≤ daysInMonth (isLeap dt.year) dt.month

instance : DecidablePred validDate := fun dt =>
  inferInstanceAs (Decidable (1 ≤ dt.month ∧ dt.month ≤ 12 ∧ 1 ≤ dt.day ∧
    dt.day ≤ daysInMonth (isLeap dt.year) dt.month))

/-- Aggregation helpers for the `min`, `max` and `mean` statistics of a
group of values (pandas `.min()`, `.max()`, `.mean()`). -/
def listMin : List ℚ → ℚ
  | [] => 0
  | x :: xs => xs.foldl min x

/-- Maximum of a group of values. -/
def listMax : List ℚ → ℚ
  | [] => 0
  | x :: xs => xs.foldl max x

/-- Mean of a group of values. -/
def listMean (l : List ℚ) : ℚ :=
  l.sum / l.length

/-! ### Daily record envelope and year overlay (plot_x assignment)

Embeds `calculate_daily_records` (temp_analysis.py lines 509-570) and
`get_year_overlay_data` (lines 572-633).  Both apply the same optional
seasonal filter (the `rangeMask` of the Calendar Range Resolver) and the
same plot-coordinate rule: for year-spanning ranges
`plot_x = day_of_year + 365 if month <= end_month else day_of_year`,
otherwise `plot_x = day_of_year`. -/

/-- The optional seasonal filter: `none` models absent
`start_month`/`end_month` parameters. -/
def keepInRange (range? : Option (Nat × Nat × Nat × Nat)) (dt : Date) : Bool :=
  match range? with
  | none => true
  | some (sm, sd, em, ed) => rangeMask sm sd em ed dt.month dt.day

/-- The plot coordinate rule shared by both functions (source:
`r.day_of_year + 365 if r.month <= end_month else r.day_of_year` when the
range spans a year boundary, `day_of_year` otherwise or when no range is
given). -/
def plotX (range? : Option (Nat × Nat × Nat × Nat)) (month doy : Nat) : Nat :=
  match range? with
  | none => doy
  | some (sm, sd, em, ed) =>
    if spansYear sm sd em ed then
      if month ≤ em then doy + 365 else doy
    else doy

/-- One output row of `calculate_daily_records`: a (month, day) group
with its record stats, day_of_year (of the first group member) and
plot_x. -/
structure DailyRow where
  month : Nat
  day : Nat
  doy : Nat
  recordHigh : ℚ
  recordLow : ℚ
  avgTemp : ℚ
  plotXVal : Nat
deriving DecidableEq, Repr

/-- Ordering by plot_x, for the final `sort_values('plot_x')`. -/
def plotXLe (a b : DailyRow) : Prop :=
  a.plotXVal ≤ b.plotXVal

instance : DecidableRel plotXLe :=
  fun a b => inferInstanceAs (Decidable (a.plotXVal ≤ b.plotXVal))

instance : IsTotal DailyRow plotXLe :=
  ⟨fun a b => Nat.le_total a.plotXVal b.plotXVal⟩

instance : IsTrans DailyRow plotXLe :=
  ⟨fun _ _ _ => Nat.le_trans⟩

/-- Embedding of `calculate_daily_records`: filter by the optional
range, group by (month, day), take record max/min/mean of the metric and
the first member's day_of_year, assign plot_x, sort by plot_x.  (pandas
sorts the groupby keys; since the rows are re-sorted by plot_x at the
end, we keep the keys in first-occurrence order here.) -/
def calculateDailyRecords (rs : List DayRec) (metric : Metric)
    (range? : Option (Nat × Nat × Nat × Nat)) : List DailyRow :=
  let rows := rs.filter (fun r => keepInRange range? r.date)
  let keys := (rows.map (fun r => (r.date.month, r.date.day))).dedup
  let mk := fun (k : Nat × Nat) =>
    let grp := rows.filter (fun r => r.date.month == k.1 && r.date.day == k.2)
    let vals := grp.map (DayRec.val metric)
    let doy0 := ((grp.head?).map (fun r => r.date.doy)).getD 0
    { month := k.1, day := k.2, doy := doy0,
      recordHigh := listMax vals, recordLow := listMin vals,
      avgTemp := listMean vals,
      plotXVal := plotX range? k.1 doy0 : DailyRow }
  (keys.map mk).insertionSort plotXLe

/-- One output row of `get_year_overlay_data`: a raw daily value of the
requested year with its plot_x. -/
structure OverlayRow where
  month : Nat
  day : Nat
  doy : Nat
  temp : ℚ
  plotXVal : Nat
deriving DecidableEq, Repr

/-- Ordering by plot_x for the overlay rows. -/
def overlayLe (a b : OverlayRow) : Prop :=
  a.plotXVal ≤ b.plotXVal

instance : DecidableRel overlayLe :=
  fun a b => inferInstanceAs (Decidable (a.plotXVal ≤ b.plotXVal))

instance : IsTotal OverlayRow overlayLe :=
  ⟨fun a b => Nat.le_total a.plotXVal b.plotXVal⟩

instance : IsTrans OverlayRow overlayLe :=
  ⟨fun _ _ _ => Nat.le_trans⟩

/-- Embedding of `get_year_overlay_data`: restrict to one year, apply
the optional range filter, emit each row with its plot_x, sort by
plot_x. -/
def getYearOverlayData (rs : List DayRec) (year : Nat) (metric : Metric)
    (range? : Option (Nat × Nat × Nat × Nat)) : List OverlayRow :=
  let rows := (rs.filter (fun r => r.date.year == year)).filter
    (fun r => keepInRange range? r.date)
  (rows.map (fun r =>
    { month := r.date.month, day := r.date.day, doy := r.date.doy,
      temp := DayRec.val metric r,
      plotXVal := plotX range? r.date.month r.date.doy : OverlayRow })).insertionSort
    overlayLe

lemma month_le_iff_inEndPortion (sm sd em ed m d : Nat) (hm : em < sm)
    (hmask : rangeMask sm sd em ed m d = true) :
    m ≤ em ↔ inEndPortion em ed m d = true := by
  have hs : spansYear sm sd em ed = true := by
    simp only [spansYear, Bool.or_eq_true, decide_eq_true_eq, gt_iff_lt]
    left
    exact hm
  simp only [rangeMask, hs, if_true, Bool.or_eq_true] at hmask
  simp only [inStartPortion, inEndPortion, Bool.or_eq_true, Bool.and_eq_true,
    decide_eq_true_eq, beq_iff_eq] at hmask ⊢
  omega

lemma mem_calculateDailyRecords {rs : List DayRec} {metric : Metric}
    {range? : Option (Nat × Nat × Nat × Nat)} {row : DailyRow}
    (h : row ∈ calculateDailyRecords rs metric range?) :
    row.plotXVal = plotX range? row.month row.doy ∧
      ∃ r ∈ rs, keepInRange range? r.date = true ∧
        r.date.month = row.month ∧ r.date.day = row.day := by
  have h2 : row ∈ ((rs.filter (fun r => keepInRange range? r.date)).map
      (fun r => (r.date.month, r.date.day))).dedup.map _ :=
    ((List.perm_insertionSort plotXLe _).mem_iff).mp h
  obtain ⟨k, hk, rfl⟩ := List.mem_map.mp h2
  refine ⟨rfl, ?_⟩
  obtain ⟨r, hr, hkeq⟩ := List.mem_map.mp (List.mem_dedup.mp hk)
  obtain ⟨hrs, hkeep⟩ := List.mem_filter.mp hr
  subst hkeq
  exact ⟨r, hrs, hkeep, rfl, rfl⟩

lemma mem_getYearOverlayData {rs : List DayRec} {year : Nat} {metric : Metric}
    {range? : Option (Nat × Nat × Nat × Nat)} {row : OverlayRow}
    (h : row ∈ getYearOverlayData rs year metric range?) :
    row.plotXVal = plotX range? row.month row.doy ∧
      ∃ r ∈ rs, keepInRange range? r.date = true ∧
        r.date.month = row.month ∧ r.date.day = row.day := by
  have h2 := ((List.perm_insertionSort overlayLe _).mem_iff).mp h
  obtain ⟨r, hr, rfl⟩ := List.mem_map.mp h2
  obtain ⟨hr1, hkeep⟩ := List.mem_filter.mp hr
  obtain ⟨hrs, _⟩ := List.mem_filter.mp hr1
  exact ⟨rfl, r, hrs, hkeep, rfl, rfl⟩

lemma plotX_of_mask {sm sd em ed m d doy : Nat} (hm : em < sm)
    (hmask : rangeMask sm sd em ed m d = true) :
    plotX (some (sm, sd, em, ed)) m doy =
      (if inEndPortion em ed m d = true then doy + 365 else doy) := by
  have hs : spansYear sm sd em ed = true := by
    simp only [spansYear, Bool.or_eq_true, decide_eq_true_eq, gt_iff_lt]
    left
    exact hm
  have hiff := month_le_iff_inEndPortion sm sd em ed m d hm hmask
  by_cases hle : m ≤ em
  · simp only [plotX, hs, if_true, if_pos hle, if_pos (hiff.mp hle)]
  · have hend : ¬ inEndPortion em ed m d = true := fun hc => hle (hiff.mpr hc)
    simp only [plotX, hs, if_true, if_neg hle, if_neg hend]

/-- Claim C5 (amended): with no range, or with a non-spanning range,
every row of `calculate_daily_records` and `get_year_overlay_data` gets
`plot_x = day_of_year`.  For a spanning range with
`start_month > end_month`, exactly the matched days in the
after-new-year portion (lexicographically ≤ (end_month, end_day)) get
`plot_x = day_of_year + 365` and every other matched day gets
`plot_x = day_of_year`.  (Amendment: for the degenerate spanning case
`start_month = end_month ∧ start_day > end_day` the code shifts every
matched day whose month equals `end_month`, including days of the
pre-new-year start portion, by +365 — see `c5_counterexample`.) -/
theorem c5_plot_x_assignment (rs : List DayRec) (year : Nat) (metric : Metric)
    (sm sd em ed : Nat) (row : DailyRow) (orow : OverlayRow) :
    (row ∈ calculateDailyRecords rs metric none → row.plotXVal = row.doy) ∧
    (spansYear sm sd em ed = false →
      row ∈ calculateDailyRecords rs metric (some (sm, sd, em, ed)) →
      row.plotXVal = row.doy) ∧
    (em < sm →
      row ∈ calculateDailyRecords rs metric (some (sm, sd, em, ed)) →
      row.plotXVal =
        (if inEndPortion em ed row.month row.day = true then row.doy + 365 else row.doy)) ∧
    (orow ∈ getYearOverlayData rs year metric none → orow.plotXVal = orow.doy) ∧
    (spansYear sm sd em ed = false →
      orow ∈ getYearOverlayData rs year metric (some (sm, sd, em, ed)) →
      orow.plotXVal = orow.doy) ∧
    (em < sm →
      orow ∈ getYearOverlayData rs year metric (some (sm, sd, em, ed)) →
      orow.plotXVal =
        (if inEndPortion em ed orow.month orow.day = true then orow.doy + 365 else orow.doy)) := by
  refine ⟨?_, ?_, ?_, ?_, ?_, ?_⟩
  · intro h
    exact (mem_calculateDailyRecords h).1
  · intro hspan h
    have h1 := (mem_calculateDailyRecords h).1
    simpa only [plotX, hspan, Bool.false_eq_true, if_false] using h1
  · intro hm h
    obtain ⟨h1, r, _, hkeep, hmon, hday⟩ := mem_calculateDailyRecords h
    rw [h1]
    have hmask : rangeMask sm sd em ed row.month row.day = true := by
      simpa only [keepInRange, hmon, hday] using hkeep
    exact plotX_of_mask hm hmask
  · intro h
    exact (mem_getYearOverlayData h).1
  · intro hspan h
    have h1 := (mem_getYearOverlayData h).1
    simpa only [plotX, hspan, Bool.false_eq_true, if_false] using h1
  · intro hm h
    obtain ⟨h1, r, _, hkeep, hmon, hday⟩ := mem_getYearOverlayData h
    rw [h1]
    have hmask : rangeMask sm sd em ed orow.month orow.day = true := by
      simpa only [keepInRange, hmon, hday] using hkeep
    exact plotX_of_mask hm hmask

/-- Witness for C5: the amended theorem applied to the spanning range
Dec 20 - Jan 10 on a two-record series (Dec 31 2020 and Jan 5 2021).
The output really contains the December row — its day of year is 366,
2020 being a leap year — and, not being in the after-new-year portion,
it keeps `plot_x = day_of_year`. -/
theorem c5_witness :
    (1 : Nat) < 12 ∧
    ∃ row ∈ calculateDailyRecords
        [⟨⟨2020, 12, 31⟩, 50, 50, 50⟩, ⟨⟨2021, 1, 5⟩, 40, 40, 40⟩]
        Metric.tmax (some (12, 20, 1, 10)),
      row.month = 12 ∧ row.day = 31 ∧ row.doy = 366 ∧
        inEndPortion 1 10 row.month row.day = false ∧
        row.plotXVal =
          (if inEndPortion 1 10 row.month row.day = true then row.doy + 365
           else row.doy) := by
  have hk : ((12 : Nat), (31 : Nat)) ∈
      ((([⟨⟨2020, 12, 31⟩, 50, 50, 50⟩,
          ⟨⟨2021, 1, 5⟩, 40, 40, 40⟩] : List DayRec).filter
        (fun r => keepInRange (some (12, 20, 1, 10)) r.date)).map
        (fun r => (r.date.month, r.date.day))).dedup := by decide
  have hmem : _ ∈ calculateDailyRecords
      [⟨⟨2020, 12, 31⟩, 50, 50, 50⟩, ⟨⟨2021, 1, 5⟩, 40, 40, 40⟩]
      Metric.tmax (some (12, 20, 1, 10)) :=
    (List.mem_insertionSort plotXLe).mpr (List.mem_map_of_mem _ hk)
  refine ⟨by decide, _, hmem, rfl, rfl, by decide, by decide, ?_⟩
  exact (c5_plot_x_assignment
    [⟨⟨2020, 12, 31⟩, 50, 50, 50⟩, ⟨⟨2021, 1, 5⟩, 40, 40, 40⟩] 2020
    Metric.tmax 12 20 1 10 _ ⟨12, 31, 366, 50, 366⟩).2.2.1 (by decide) hmem

/-- Counterexample for C5 as stated: for the degenerate spanning range
Jun 15 - Jun 10 (start_month = end_month, start_day > end_day), the
record dated 2020-06-20 is matched via the pre-new-year start portion
(it is not in the after-new-year portion), yet the code assigns it
`plot_x = day_of_year + 365 = 537`, not `day_of_year = 172` as the claim
states for start-portion days. -/
theorem c5_counterexample :
    spansYear 6 15 6 10 = true ∧
    inStartPortion 6 15 6 20 = true ∧
    inEndPortion 6 10 6 20 = false ∧
    (calculateDailyRecords [⟨⟨2020, 6, 20⟩, 90, 70, 80⟩] Metric.tmax
        (some (6, 15, 6, 10))).map
      (fun row => (row.month, row.day, row.doy, row.plotXVal)) = [(6, 20, 172, 537)] := by
  decide

/-! ### Streak Detector

Embeds `find_streaks` (temp_analysis.py lines 68-112).  The source
builds a boolean mask over the metric column, forms
`streak_id = (mask != mask.shift()).cumsum()` (the shifted mask is NaN
at row 0, so the change flag is true there and ids start at 1), keeps
the rows where the mask holds, groups them by streak id and aggregates
per group; finally it sorts by length descending
(`sort_values('length', ascending=False)`, which pandas realises as a
reversed ascending argsort) and truncates to `top_n`. -/

/-- The boolean mask at row `i` of the metric column `vs`. -/
def streakMask (vs : List ℚ) (dir : Direction) (thr : ℚ) (i : Nat) : Bool :=
  meetsThreshold dir thr (vs.getD i 0)

/-- The id column `(mask != mask.shift()).cumsum()` at row `i`: row 0
always opens group 1; the id increments exactly where the mask value
changes from the previous row. -/
def streakId (m : Nat → Bool) : Nat → Nat
  | 0 => 1
  | i + 1 => streakId m i + (if m (i + 1) == m i then 0 else 1)

/-- Row indices satisfying the mask, in row order (`self.df[mask]`). -/
def trueIdxs (m : Nat → Bool) (n : Nat) : List Nat :=
  (List.range n).filter m

/-- The distinct streak ids among mask rows.  The ids are non-decreasing
in the row index, so first-occurrence order coincides with the ascending
key order of the pandas groupby. -/
def usedStreakIds (m : Nat → Bool) (n : Nat) : List Nat :=
  ((trueIdxs m n).map (streakId m)).dedup

/-- The member row indices of the group with id `k`. -/
def streakIdxs (m : Nat → Bool) (n k : Nat) : List Nat :=
  (trueIdxs m n).filter (fun i => streakId m i == k)

/-- One streak group: its member row indices and metric values.  The
reported columns are derived from these: `length` is the row count,
`start_date`/`end_date` are the dates at the first/last index, and the
temperature stats are aggregates of `vals`. -/
structure Streak where
  idxs : List Nat
  vals : List ℚ
deriving DecidableEq, Repr

/-- The `length` column: the group's row count. -/
def Streak.len (s : Streak) : Nat :=
  s.idxs.length

/-- The `avg_temp` column. -/
def Streak.avgTemp (s : Streak) : ℚ :=
  listMean s.vals

/-- The `min_temp` column. -/
def Streak.minTemp (s : Streak) : ℚ :=
  listMin s.vals

/-- The `max_temp` column. -/
def Streak.maxTemp (s : Streak) : ℚ :=
  listMax s.vals

/-- The streak group with id `k`. -/
def streakGroup (vs : List ℚ) (dir : Direction) (thr : ℚ) (k : Nat) : Streak :=
  { idxs := streakIdxs (streakMask vs dir thr) vs.length k,
    vals := (streakIdxs (streakMask vs dir thr) vs.length k).map (fun i => vs.getD i 0) }

/-- The groupby of `find_streaks`: one `Streak` per used id, in id
order. -/
def streakGroups (vs : List ℚ) (dir : Direction) (thr : ℚ) : List Streak :=
  (usedStreakIds (streakMask vs dir thr) vs.length).map (streakGroup vs dir thr)

/-- Ranking relation for `sort_values('length', ...)`. -/
def lenLe (a b : Streak) : Prop :=
  a.len ≤ b.len

instance : DecidableRel lenLe :=
  fun a b => inferInstanceAs (Decidable (a.len ≤ b.len))

instance : IsTotal Streak lenLe :=
  ⟨fun a b => Nat.le_total a.len b.len⟩

instance : IsTrans Streak lenLe :=
  ⟨fun _ _ _ => Nat.le_trans⟩

/-- Embedding of `find_streaks`: group by streak id, sort by length
descending, truncate to `top_n`.  pandas realises
`sort_values('length', ascending=False)` through `nargsort`, which for
a descending sort reverses the values and row positions BEFORE the
ascending argsort and reverses the resulting indexer AFTER; with a
stable underlying sort the net effect is a stable descending sort (ties
keep first-occurrence order).  We model this double reversal literally:
reverse the groups, sort ascending (stably), reverse the result. -/
def findStreaks (rs : List DayRec) (metric : Metric) (thr : ℚ)
    (dir : Direction) (topN : Nat) : List Streak :=
  ((((streakGroups (rs.map (DayRec.val metric)) dir thr).reverse).insertionSort
      lenLe).reverse).take topN

lemma streakId_succ_eq_iff (m : Nat → Bool) (i : Nat) :
    streakId m (i + 1) = streakId m i ↔ m (i + 1) = m i := by
  rcases h : m (i + 1) == m i with _ | _
  · simp only [streakId, h, Bool.false_eq_true, if_false]
    constructor
    · omega
    · intro he
      exact absurd ((beq_iff_eq).mpr he) (by rw [h]; decide)
  · simp only [streakId, h, if_true, Nat.add_zero, true_iff]
    exact (beq_iff_eq).mp h

lemma mem_streakIdxs {m : Nat → Bool} {n k i : Nat} :
    i ∈ streakIdxs m n k ↔ i < n ∧ m i = true ∧ streakId m i = k := by
  simp only [streakIdxs, trueIdxs, List.mem_filter, List.mem_range, beq_iff_eq, and_assoc]

lemma streakIdxs_pairwise (m : Nat → Bool) (n k : Nat) :
    (streakIdxs m n k).Pairwise (· < ·) :=
  ((List.pairwise_lt_range n).filter m).filter _

lemma head?_mem_list {α : Type _} {l : List α} {a : α}
    (ha : l.head? = some a) : a ∈ l := by
  cases l with
  | nil => simp at ha
  | cons b t =>
    have hab : b = a := by simpa using ha
    subst hab
    exact List.mem_cons_self _ _

lemma rel_of_head?_pairwise {α : Type _} {r : α → α → Prop} {l : List α}
    (hp : l.Pairwise r) {a : α} (ha : l.head? = some a) :
    ∀ x ∈ l, x = a ∨ r a x := by
  cases l with
  | nil => simp at ha
  | cons b t =>
    have hab : b = a := by simpa using ha
    subst hab
    intro x hx
    rcases List.mem_cons.mp hx with hxb | hxt
    · exact Or.inl hxb
    · exact Or.inr ((List.pairwise_cons.mp hp).1 x hxt)

lemma getLast?_mem_list {α : Type _} {l : List α} {a : α}
    (ha : l.getLast? = some a) : a ∈ l := by
  have hx : a ∈ l.getLast? := by simp [Option.mem_def, ha]
  obtain ⟨hne, rfl⟩ := List.mem_getLast?_eq_getLast hx
  exact List.getLast_mem hne

lemma rel_of_getLast?_pairwise {α : Type _} {r : α → α → Prop} {l : List α}
    (hp : l.Pairwise r) {a : α} (ha : l.getLast? = some a) :
    ∀ x ∈ l, x = a ∨ r x a := by
  induction l with
  | nil => simp at ha
  | cons b t ih =>
    cases t with
    | nil =>
      have hab : b = a := by simpa using ha
      subst hab
      intro x hx
      simp only [List.mem_singleton] at hx
      exact Or.inl hx
    | cons c t2 =>
      rw [List.getLast?_cons_cons] at ha
      intro x hx
      rcases List.mem_cons.mp hx with hxb | hxt
      · subst hxb
        have hamem : a ∈ c :: t2 := getLast?_mem_list ha
        exact Or.inr ((List.pairwise_cons.mp hp).1 a hamem)
      · exact ih (List.pairwise_cons.mp hp).2 ha x hxt

lemma streak_before_boundary {m : Nat → Bool} {n k h0 : Nat}
    (hh : (streakIdxs m n k).head? = some h0) (hpos : 0 < h0) :
    m (h0 - 1) = false := by
  by_contra hc
  have hmh : m (h0 - 1) = true := by
    rcases hb : m (h0 - 1) with _ | _
    · exact absurd hb hc
    · rfl
  have hmem : h0 ∈ streakIdxs m n k := head?_mem_list hh
  obtain ⟨hlt, hm0, hid⟩ := mem_streakIdxs.mp hmem
  have hsucc : h0 - 1 + 1 = h0 := Nat.succ_pred_eq_of_pos hpos
  have hideq : streakId m h0 = streakId m (h0 - 1) := by
    rw [← hsucc]
    exact (streakId_succ_eq_iff m (h0 - 1)).mpr (by rw [hsucc, hm0, hmh])
  have hmem2 : h0 - 1 ∈ streakIdxs m n k :=
    mem_streakIdxs.mpr ⟨by omega, hmh, by rw [← hideq, hid]⟩
  have := rel_of_head?_pairwise (streakIdxs_pairwise m n k) hh (h0 - 1) hmem2
  omega

lemma streak_after_boundary {m : Nat → Bool} {n k l0 : Nat}
    (hl : (streakIdxs m n k).getLast? = some l0) (hlt : l0 + 1 < n) :
    m (l0 + 1) = false := by
  by_contra hc
  have hml : m (l0 + 1) = true := by
    rcases hb : m (l0 + 1) with _ | _
    · exact absurd hb hc
    · rfl
  have hmem : l0 ∈ streakIdxs m n k := getLast?_mem_list hl
  obtain ⟨_, hm0, hid⟩ := mem_streakIdxs.mp hmem
  have hideq : streakId m (l0 + 1) = streakId m l0 :=
    (streakId_succ_eq_iff m l0).mpr (by rw [hml, hm0])
  have hmem2 : l0 + 1 ∈ streakIdxs m n k :=
    mem_streakIdxs.mpr ⟨hlt, hml, by rw [hideq, hid]⟩
  have := rel_of_getLast?_pairwise (streakIdxs_pairwise m n k) hl (l0 + 1) hmem2
  omega

lemma mem_findStreaks_imp {rs : List DayRec} {metric : Metric} {thr : ℚ}
    {dir : Direction} {topN : Nat} {s : Streak}
    (hs : s ∈ findStreaks rs metric thr dir topN) :
    ∃ k, s = streakGroup (rs.map (DayRec.val metric)) dir thr k := by
  have h1 : s ∈ (((streakGroups (rs.map (DayRec.val metric)) dir thr).reverse).insertionSort
      lenLe).reverse := List.take_subset _ _ hs
  have h2 := List.mem_reverse.mp h1
  have h3 : s ∈ streakGroups (rs.map (DayRec.val metric)) dir thr :=
    List.mem_reverse.mp ((List.mem_insertionSort lenLe).mp h2)
  obtain ⟨k, _, rfl⟩ := List.mem_map.mp h3
  exact ⟨k, rfl⟩

/-- Claim C3: every member row of a returned streak satisfies the
threshold predicate, and the rows immediately before the first member
and immediately after the last member (when they exist) do not:
returned runs are maximal contiguous runs by sequence position. -/
theorem c3_streak_members_and_maximality (rs : List DayRec) (metric : Metric)
    (thr : ℚ) (dir : Direction) (topN : Nat) (s : Streak)
    (hs : s ∈ findStreaks rs metric thr dir topN) :
    (∀ i ∈ s.idxs, streakMask (rs.map (DayRec.val metric)) dir thr i = true) ∧
    (∀ h0, s.idxs.head? = some h0 → 0 < h0 →
      streakMask (rs.map (DayRec.val metric)) dir thr (h0 - 1) = false) ∧
    (∀ l0, s.idxs.getLast? = some l0 → l0 + 1 < rs.length →
      streakMask (rs.map (DayRec.val metric)) dir thr (l0 + 1) = false) := by
  obtain ⟨k, rfl⟩ := mem_findStreaks_imp hs
  refine ⟨?_, ?_, ?_⟩
  · intro i hi
    exact (mem_streakIdxs.mp hi).2.1
  · intro h0 hh hpos
    exact streak_before_boundary hh hpos
  · intro l0 hlast hlt
    exact streak_after_boundary hlast (by simpa using hlt)

/-- Witness for C3: on the 5-day series with TMAX = [95, 96, 94, 97, 93]
and threshold 94 (direction above), the single returned run is rows 0-3;
the theorem applies to it and in particular row 4 (value 93) fails the
predicate. -/
theorem c3_witness :
    (⟨[0, 1, 2, 3], [95, 96, 94, 97]⟩ : Streak) ∈
      findStreaks [⟨⟨2020, 1, 1⟩, 95, 80, 85⟩, ⟨⟨2020, 1, 2⟩, 96, 80, 85⟩,
        ⟨⟨2020, 1, 3⟩, 94, 80, 85⟩, ⟨⟨2020, 1, 4⟩, 97, 80, 85⟩,
        ⟨⟨2020, 1, 5⟩, 93, 80, 85⟩] Metric.tmax 94 Direction.above 10 ∧
    (∀ l0, ([0, 1, 2, 3] : List Nat).getLast? = some l0 → l0 + 1 < 5 →
      streakMask ([95, 96, 94, 97, 93] : List ℚ) Direction.above 94 (l0 + 1) = false) := by
  refine ⟨by decide, ?_⟩
  have h := c3_streak_members_and_maximality
    [⟨⟨2020, 1, 1⟩, 95, 80, 85⟩, ⟨⟨2020, 1, 2⟩, 96, 80, 85⟩,
      ⟨⟨2020, 1, 3⟩, 94, 80, 85⟩, ⟨⟨2020, 1, 4⟩, 97, 80, 85⟩,
      ⟨⟨2020, 1, 5⟩, 93, 80, 85⟩] Metric.tmax 94 Direction.above 10
    ⟨[0, 1, 2, 3], [95, 96, 94, 97]⟩ (by decide)
  exact h.2.2

lemma head?_take {α : Type _} {l : List α} {n : Nat} {a : α}
    (h : (l.take n).head? = some a) : l.head? = some a := by
  cases n with
  | zero => simp at h
  | succ n2 =>
    cases l with
    | nil => simp at h
    | cons b t => simpa using h

/-- Claim C4: `find_streaks` ranks the runs by length descending with
ties broken by original first-occurrence order (the `nargsort` double
reversal around a stable ascending sort) and truncates to `top_n`; the
reported lengths are non-increasing; the first result has the length of
the longest qualifying run; and any two equal-length runs in
first-occurrence order stay in that order in the ranking. -/
theorem c4_streak_ordering (rs : List DayRec) (metric : Metric) (thr : ℚ)
    (dir : Direction) (topN : Nat) :
    findStreaks rs metric thr dir topN =
      (((((streakGroups (rs.map (DayRec.val metric)) dir thr).reverse).insertionSort
        lenLe).reverse).take topN) ∧
    ((findStreaks rs metric thr dir topN).map Streak.len).Sorted (· ≥ ·) ∧
    (∀ s, (findStreaks rs metric thr dir topN).head? = some s →
      ∀ t ∈ streakGroups (rs.map (DayRec.val metric)) dir thr, t.len ≤ s.len) ∧
    (∀ s t, List.Sublist [s, t] (streakGroups (rs.map (DayRec.val metric)) dir thr) →
      s.len = t.len →
      List.Sublist [s, t]
        ((((streakGroups (rs.map (DayRec.val metric)) dir thr).reverse).insertionSort
          lenLe).reverse)) := by
  have hsorted : (((streakGroups (rs.map (DayRec.val metric)) dir thr).reverse).insertionSort
      lenLe).Sorted lenLe :=
    List.sorted_insertionSort lenLe _
  refine ⟨rfl, ?_, ?_, ?_⟩
  · have hrev : ((((streakGroups (rs.map (DayRec.val metric)) dir thr).reverse).insertionSort
        lenLe).reverse).Pairwise (fun a b => lenLe b a) :=
      (List.pairwise_reverse).mpr hsorted
    have htake := hrev.sublist (List.take_sublist topN _)
    exact (List.pairwise_map).mpr (htake.imp (fun hab => hab))
  · intro s hhead t ht
    have hh2 := head?_take hhead
    rw [List.head?_reverse] at hh2
    have htmem : t ∈ ((streakGroups (rs.map (DayRec.val metric)) dir thr).reverse).insertionSort
        lenLe := (List.mem_insertionSort lenLe).mpr (List.mem_reverse.mpr ht)
    rcases rel_of_getLast?_pairwise hsorted hh2 t htmem with heq | hle
    · rw [heq]
    · exact hle
  · intro s t hst hlen
    have h1 : List.Sublist [t, s]
        ((streakGroups (rs.map (DayRec.val metric)) dir thr).reverse) := by
      have h := hst.reverse
      simpa using h
    have h2 : List.Sublist [t, s]
        (((streakGroups (rs.map (DayRec.val metric)) dir thr).reverse).insertionSort
          lenLe) :=
      List.pair_sublist_insertionSort (le_of_eq hlen.symm) h1
    have h3 := h2.reverse
    simpa using h3

/-- The tie series for C4: TMAX = [95, 95, 90, 95, 95] has two runs of
length 2 above 94, rows 0-1 and rows 3-4. -/
def tieSeries : List DayRec :=
  [⟨⟨2020, 1, 1⟩, 95, 80, 85⟩, ⟨⟨2020, 1, 2⟩, 95, 80, 85⟩,
   ⟨⟨2020, 1, 3⟩, 90, 80, 85⟩, ⟨⟨2020, 1, 4⟩, 95, 80, 85⟩,
   ⟨⟨2020, 1, 5⟩, 95, 80, 85⟩]

/-- Witness for C4: on `tieSeries` the two equal-length runs come back
in first-occurrence order (rows 0-1 before rows 3-4); the first result
bounds every run's length, and the theorem's stability part applies to
the concrete tie pair. -/
theorem c4_witness :
    ((findStreaks tieSeries Metric.tmax 94 Direction.above 10).map Streak.idxs =
      [[0, 1], [3, 4]]) ∧
    (∀ t ∈ streakGroups ([95, 95, 90, 95, 95] : List ℚ) Direction.above 94,
      t.len ≤ (⟨[0, 1], [95, 95]⟩ : Streak).len) ∧
    List.Sublist [(⟨[0, 1], [95, 95]⟩ : Streak), ⟨[3, 4], [95, 95]⟩]
      ((((streakGroups (tieSeries.map (DayRec.val Metric.tmax)) Direction.above
        94).reverse).insertionSort lenLe).reverse) := by
  have h := c4_streak_ordering tieSeries Metric.tmax 94 Direction.above 10
  refine ⟨by decide, ?_, ?_⟩
  · intro t ht
    exact h.2.2.1 ⟨[0, 1], [95, 95]⟩ (by decide) t (by simpa using ht)
  · exact h.2.2.2 ⟨[0, 1], [95, 95]⟩ ⟨[3, 4], [95, 95]⟩ (by decide) (by decide)

/-! ### Extreme Window Selector

Embeds `find_extreme_periods` (temp_analysis.py lines 114-190): compute
the trailing rolling mean over `n_days` rows, rank valid window-end
positions by extremity (`np.argsort` for coldest,
`np.argsort(...)[::-1]` for warmest), then greedily collect
non-overlapping windows until `top_n` are selected. -/

/-- Row indices of the window ending at `i`: `range(start_idx,
end_idx + 1)` with `start_idx = idx - n_days + 1`. -/
def windowIdx (nDays i : Nat) : List Nat :=
  List.range' (i + 1 - nDays) nDays

/-- The trailing rolling mean at end index `i`
(`rolling(window=n_days, min_periods=n_days).mean()`). -/
def rollingAvg (vs : List ℚ) (nDays i : Nat) : ℚ :=
  ((windowIdx nDays i).map (fun j => vs.getD j 0)).sum / nDays

/-- End indices with a defined rolling value: the first `n_days - 1`
positions are NaN under `min_periods=n_days` and excluded by
`valid_mask`. -/
def validIdxs (vs : List ℚ) (nDays : Nat) : List Nat :=
  (List.range vs.length).filter (fun i => nDays ≤ i + 1)

/-- Candidate ranking relation: ascending rolling mean. -/
def rollLe (vs : List ℚ) (nDays : Nat) (i j : Nat) : Prop :=
  rollingAvg vs nDays i ≤ rollingAvg vs nDays j

instance (vs : List ℚ) (nDays : Nat) : DecidableRel (rollLe vs nDays) :=
  fun i j => inferInstanceAs (Decidable (rollingAvg vs nDays i ≤ rollingAvg vs nDays j))

instance (vs : List ℚ) (nDays : Nat) : IsTotal Nat (rollLe vs nDays) :=
  ⟨fun i j => le_total (rollingAvg vs nDays i) (rollingAvg vs nDays j)⟩

instance (vs : List ℚ) (nDays : Nat) : IsTrans Nat (rollLe vs nDays) :=
  ⟨fun _ _ _ => le_trans⟩

/-- The candidate order `sorted_indices`: ascending by rolling mean for
coldest, the reverse of that ascending order for warmest. -/
def sortedIdxs (vs : List ℚ) (nDays : Nat) (extreme : Extreme) : List Nat :=
  match extreme with
  | .coldest => (validIdxs vs nDays).insertionSort (rollLe vs nDays)
  | .warmest => ((validIdxs vs nDays).insertionSort (rollLe vs nDays)).reverse

/-- The greedy selection loop: walk the candidates in rank order, skip
a window when any of its row indices is already used, otherwise select
it and mark its rows used; stop once `top_n` windows are selected.
(The `isna` and `start_idx < 0` guards of the source are vacuous:
every candidate `i` satisfies `n_days <= i + 1`, so `start_idx >= 0`
and the rolling value is defined.) -/
def greedyPeriods (nDays topN : Nat) : List Nat → List Nat → List Nat → List Nat
  | [], _, sel => sel
  | i :: rest, used, sel =>
    if (windowIdx nDays i).any (fun j => used.contains j) then
      greedyPeriods nDays topN rest used sel
    else if topN ≤ (sel ++ [i]).length then sel ++ [i]
    else greedyPeriods nDays topN rest (used ++ windowIdx nDays i) (sel ++ [i])

/-- One output row of `find_extreme_periods`. -/
structure Period where
  startIdx : Nat
  endIdx : Nat
  avgTemp : ℚ
  minTemp : ℚ
  maxTemp : ℚ
  len : Nat
deriving DecidableEq, Repr

/-- The output row for the selected window ending at `i`. -/
def mkPeriod (vs : List ℚ) (nDays i : Nat) : Period :=
  { startIdx := i + 1 - nDays, endIdx := i,
    avgTemp := rollingAvg vs nDays i,
    minTemp := listMin ((windowIdx nDays i).map (fun j => vs.getD j 0)),
    maxTemp := listMax ((windowIdx nDays i).map (fun j => vs.getD j 0)),
    len := nDays }

/-- Embedding of `find_extreme_periods`. -/
def findExtremePeriods (rs : List DayRec) (metric : Metric) (nDays : Nat)
    (extreme : Extreme) (topN : Nat) : List Period :=
  (greedyPeriods nDays topN
      (sortedIdxs (rs.map (DayRec.val metric)) nDays extreme) [] []).map
    (mkPeriod (rs.map (DayRec.val metric)) nDays)

/-- Spec-side definition (for comparison with the source): the same
ranking with the non-overlap constraint removed, i.e. simply the first
`top_n` candidates in rank order. -/
def specTopWindows (rs : List DayRec) (metric : Metric) (nDays : Nat)
    (extreme : Extreme) (topN : Nat) : List Period :=
  ((sortedIdxs (rs.map (DayRec.val metric)) nDays extreme).take topN).map
    (mkPeriod (rs.map (DayRec.val metric)) nDays)

/-- Two windows share no row index. -/
def windowsDisjoint (nDays i j : Nat) : Prop :=
  ∀ x ∈ windowIdx nDays i, x ∉ windowIdx nDays j

lemma mem_validIdxs {vs : List ℚ} {nDays i : Nat} :
    i ∈ validIdxs vs nDays ↔ i < vs.length ∧ nDays ≤ i + 1 := by
  simp [validIdxs, List.mem_filter, List.mem_range]

lemma mem_sortedIdxs {vs : List ℚ} {nDays i : Nat} {extreme : Extreme} :
    i ∈ sortedIdxs vs nDays extreme ↔ i < vs.length ∧ nDays ≤ i + 1 := by
  cases extreme with
  | coldest => rw [← mem_validIdxs]; exact List.mem_insertionSort _
  | warmest =>
    have h : sortedIdxs vs nDays Extreme.warmest =
        ((validIdxs vs nDays).insertionSort (rollLe vs nDays)).reverse := rfl
    rw [h, List.mem_reverse, List.mem_insertionSort]
    exact mem_validIdxs

lemma greedyPeriods_pairwise (nDays topN : Nat) :
    ∀ (cand used sel : List Nat),
      sel.Pairwise (windowsDisjoint nDays) →
      (∀ s ∈ sel, ∀ x ∈ windowIdx nDays s, x ∈ used) →
      (greedyPeriods nDays topN cand used sel).Pairwise (windowsDisjoint nDays)
  | [], _, _, h1, _ => h1
  | i :: rest, used, sel, h1, h2 => by
    by_cases hov : ((windowIdx nDays i).any (fun j => used.contains j)) = true
    · rw [greedyPeriods, if_pos hov]
      exact greedyPeriods_pairwise nDays topN rest used sel h1 h2
    · have hfree : ∀ x ∈ windowIdx nDays i, x ∉ used := by
        intro x hx hxu
        exact hov (List.any_eq_true.mpr ⟨x, hx, by simpa using hxu⟩)
      have hpair : (sel ++ [i]).Pairwise (windowsDisjoint nDays) := by
        rw [List.pairwise_append]
        refine ⟨h1, List.pairwise_singleton _ _, ?_⟩
        intro a ha b hb
        simp only [List.mem_singleton] at hb
        subst hb
        intro x hxa hxb
        exact hfree x hxb (h2 a ha x hxa)
      rw [greedyPeriods, if_neg hov]
      by_cases htop : topN ≤ (sel ++ [i]).length
      · rw [if_pos htop]
        exact hpair
      · rw [if_neg htop]
        refine greedyPeriods_pairwise nDays topN rest _ _ hpair ?_
        intro s hsm x hx
        rcases List.mem_append.mp hsm with hs1 | hs2
        · exact List.mem_append.mpr (Or.inl (h2 s hs1 x hx))
        · simp only [List.mem_singleton] at hs2
          subst hs2
          exact List.mem_append.mpr (Or.inr hx)

lemma greedyPeriods_subset (nDays topN : Nat) :
    ∀ (cand used sel : List Nat), ∀ x ∈ greedyPeriods nDays topN cand used sel,
      x ∈ sel ∨ x ∈ cand
  | [], _, sel, x, hx => Or.inl hx
  | i :: rest, used, sel, x, hx => by
    by_cases hov : ((windowIdx nDays i).any (fun j => used.contains j)) = true
    · rw [greedyPeriods, if_pos hov] at hx
      rcases greedyPeriods_subset nDays topN rest used sel x hx with h | h
      · exact Or.inl h
      · exact Or.inr (List.mem_cons_of_mem i h)
    · rw [greedyPeriods, if_neg hov] at hx
      by_cases htop : topN ≤ (sel ++ [i]).length
      · rw [if_pos htop] at hx
        rcases List.mem_append.mp hx with h | h
        · exact Or.inl h
        · simp only [List.mem_singleton] at h
          exact Or.inr (h ▸ List.mem_cons_self i rest)
      · rw [if_neg htop] at hx
        rcases greedyPeriods_subset nDays topN rest _ _ x hx with h | h
        · rcases List.mem_append.mp h with h2 | h2
          · exact Or.inl h2
          · simp only [List.mem_singleton] at h2
            exact Or.inr (h2 ▸ List.mem_cons_self i rest)
        · exact Or.inr (List.mem_cons_of_mem i h)

lemma greedyPeriods_length (nDays topN : Nat) :
    ∀ (cand used sel : List Nat), sel.length < topN →
      (greedyPeriods nDays topN cand used sel).length ≤ topN
  | [], _, _, h => le_of_lt h
  | i :: rest, used, sel, h => by
    by_cases hov : ((windowIdx nDays i).any (fun j => used.contains j)) = true
    · rw [greedyPeriods, if_pos hov]
      exact greedyPeriods_length nDays topN rest used sel h
    · rw [greedyPeriods, if_neg hov]
      by_cases htop : topN ≤ (sel ++ [i]).length
      · rw [if_pos htop]
        simp only [List.length_append, List.length_singleton]
        omega
      · rw [if_neg htop]
        exact greedyPeriods_length nDays topN rest _ _ (by simp at htop ⊢; omega)

lemma greedyPeriods_prefix (nDays topN : Nat) :
    ∀ (cand used sel : List Nat),
      ∃ t, greedyPeriods nDays topN cand used sel = sel ++ t
  | [], _, sel => ⟨[], (List.append_nil sel).symm⟩
  | i :: rest, used, sel => by
    by_cases hov : ((windowIdx nDays i).any (fun j => used.contains j)) = true
    · rw [greedyPeriods, if_pos hov]
      exact greedyPeriods_prefix nDays topN rest used sel
    · rw [greedyPeriods, if_neg hov]
      by_cases htop : topN ≤ (sel ++ [i]).length
      · rw [if_pos htop]
        exact ⟨[i], rfl⟩
      · rw [if_neg htop]
        obtain ⟨t, ht⟩ := greedyPeriods_prefix nDays topN rest
          (used ++ windowIdx nDays i) (sel ++ [i])
        exact ⟨[i] ++ t, by rw [ht, List.append_assoc]⟩

lemma greedyPeriods_head (nDays topN : Nat) (i : Nat) (rest : List Nat) :
    (greedyPeriods nDays topN (i :: rest) [] []).head? = some i := by
  have hov : ((windowIdx nDays i).any (fun j => ([] : List Nat).contains j)) = true ↔ False := by
    simp
  rw [greedyPeriods, if_neg (hov.mp)]
  by_cases htop : topN ≤ (([] : List Nat) ++ [i]).length
  · rw [if_pos htop]
    rfl
  · rw [if_neg htop]
    obtain ⟨t, ht⟩ := greedyPeriods_prefix nDays topN rest
      (([] : List Nat) ++ windowIdx nDays i) (([] : List Nat) ++ [i])
    rw [ht]
    rfl

/-- Claim C2: no two periods returned by `find_extreme_periods` share a
row index of the series (the windows are pairwise disjoint); the greedy
loop selects at most `top_n` windows; and the first selected window is
the window whose rolling mean is most extreme, so its identity is
unchanged when the non-overlap constraint is removed (it equals the
head of the unconstrained top-`top_n` selection). -/
theorem c2_nonoverlap_and_top_window (rs : List DayRec) (metric : Metric)
    (nDays : Nat) (extreme : Extreme) (topN : Nat) (htop : 1 ≤ topN) :
    (findExtremePeriods rs metric nDays extreme topN).Pairwise
      (fun p q => ∀ x ∈ windowIdx nDays p.endIdx, x ∉ windowIdx nDays q.endIdx) ∧
    (findExtremePeriods rs metric nDays extreme topN).length ≤ topN ∧
    (∀ p, (findExtremePeriods rs metric nDays extreme topN).head? = some p →
      (specTopWindows rs metric nDays extreme topN).head? = some p ∧
      ∀ j ∈ validIdxs (rs.map (DayRec.val metric)) nDays,
        (extreme = .coldest →
          p.avgTemp ≤ rollingAvg (rs.map (DayRec.val metric)) nDays j) ∧
        (extreme = .warmest →
          rollingAvg (rs.map (DayRec.val metric)) nDays j ≤ p.avgTemp)) := by
  refine ⟨?_, ?_, ?_⟩
  · have hpair := greedyPeriods_pairwise nDays topN
      (sortedIdxs (rs.map (DayRec.val metric)) nDays extreme) [] []
      (List.Pairwise.nil) (by intro s hs; simp at hs)
    refine (List.pairwise_map).mpr (hpair.imp ?_)
    intro a b hab
    exact hab
  · rw [findExtremePeriods, List.length_map]
    exact greedyPeriods_length nDays topN _ [] [] (by simpa using htop)
  · intro p hp
    cases hcand : sortedIdxs (rs.map (DayRec.val metric)) nDays extreme with
    | nil =>
      rw [findExtremePeriods, hcand] at hp
      simp [greedyPeriods] at hp
    | cons i rest =>
      rw [findExtremePeriods, hcand] at hp
      rw [List.head?_map, greedyPeriods_head] at hp
      have hpi : p = mkPeriod (rs.map (DayRec.val metric)) nDays i := by
        simpa using hp.symm
      subst hpi
      constructor
      · rw [specTopWindows, hcand]
        cases topN with
        | zero => omega
        | succ t2 => rw [List.take_succ_cons, List.map_cons]; rfl
      · intro j hj
        have hsorted : ((validIdxs (rs.map (DayRec.val metric)) nDays).insertionSort
            (rollLe (rs.map (DayRec.val metric)) nDays)).Sorted
            (rollLe (rs.map (DayRec.val metric)) nDays) :=
          List.sorted_insertionSort _ _
        have havg : (mkPeriod (rs.map (DayRec.val metric)) nDays i).avgTemp =
            rollingAvg (rs.map (DayRec.val metric)) nDays i := rfl
        constructor
        · intro hext
          subst hext
          have hji : j ∈ (validIdxs (rs.map (DayRec.val metric)) nDays).insertionSort
              (rollLe (rs.map (DayRec.val metric)) nDays) :=
            (List.mem_insertionSort _).mpr hj
          have he : (validIdxs (rs.map (DayRec.val metric)) nDays).insertionSort
              (rollLe (rs.map (DayRec.val metric)) nDays) = i :: rest := hcand
          have hhead : ((validIdxs (rs.map (DayRec.val metric)) nDays).insertionSort
              (rollLe (rs.map (DayRec.val metric)) nDays)).head? = some i := by
            rw [he]
            rfl
          rw [havg]
          rcases rel_of_head?_pairwise hsorted hhead j hji with heq | hle
          · rw [heq]
          · exact hle
        · intro hext
          subst hext
          have hji : j ∈ (validIdxs (rs.map (DayRec.val metric)) nDays).insertionSort
              (rollLe (rs.map (DayRec.val metric)) nDays) :=
            (List.mem_insertionSort _).mpr hj
          have he : ((validIdxs (rs.map (DayRec.val metric)) nDays).insertionSort
              (rollLe (rs.map (DayRec.val metric)) nDays)).reverse = i :: rest := hcand
          have hlast : ((validIdxs (rs.map (DayRec.val metric)) nDays).insertionSort
              (rollLe (rs.map (DayRec.val metric)) nDays)).getLast? = some i := by
            rw [← List.head?_reverse, he]
            rfl
          rw [havg]
          rcases rel_of_getLast?_pairwise hsorted hlast j hji with heq | hle
          · rw [heq]
          · exact hle

/-- Witness for C2: the spec's own scenario, TAVG = [50, 40, 30, 60, 20]
with 2-day windows, coldest: the top window ends at row 2 (mean 35). -/
theorem c2_witness :
    (1 : Nat) ≤ 10 ∧
    ((findExtremePeriods
        [⟨⟨2020, 1, 1⟩, 60, 40, 50⟩, ⟨⟨2020, 1, 2⟩, 50, 30, 40⟩,
         ⟨⟨2020, 1, 3⟩, 40, 20, 30⟩, ⟨⟨2020, 1, 4⟩, 70, 50, 60⟩,
         ⟨⟨2020, 1, 5⟩, 30, 10, 20⟩] Metric.tavg 2 Extreme.coldest 10).head? =
        some (mkPeriod ([50, 40, 30, 60, 20] : List ℚ) 2 2) →
      (specTopWindows
        [⟨⟨2020, 1, 1⟩, 60, 40, 50⟩, ⟨⟨2020, 1, 2⟩, 50, 30, 40⟩,
         ⟨⟨2020, 1, 3⟩, 40, 20, 30⟩, ⟨⟨2020, 1, 4⟩, 70, 50, 60⟩,
         ⟨⟨2020, 1, 5⟩, 30, 10, 20⟩] Metric.tavg 2 Extreme.coldest 10).head? =
        some (mkPeriod ([50, 40, 30, 60, 20] : List ℚ) 2 2)) :=
  ⟨by decide, fun hp =>
    ((c2_nonoverlap_and_top_window
      [⟨⟨2020, 1, 1⟩, 60, 40, 50⟩, ⟨⟨2020, 1, 2⟩, 50, 30, 40⟩,
       ⟨⟨2020, 1, 3⟩, 40, 20, 30⟩, ⟨⟨2020, 1, 4⟩, 70, 50, 60⟩,
       ⟨⟨2020, 1, 5⟩, 30, 10, 20⟩] Metric.tavg 2 Extreme.coldest 10
      (by decide)).2.2 (mkPeriod ([50, 40, 30, 60, 20] : List ℚ) 2 2) hp).1⟩

lemma sum_map_const {α : Type _} (l : List α) (c : Nat) :
    (l.map (fun _ => c)).sum = l.length * c := by
  induction l with
  | nil => simp
  | cons a t ih => simp [ih, Nat.succ_mul, Nat.add_comm]

lemma validIdxs_nil {vs : List ℚ} {nDays : Nat} (h : vs.length < nDays) :
    validIdxs vs nDays = [] := by
  refine List.filter_eq_nil_iff.mpr ?_
  intro i hi
  have := List.mem_range.mp hi
  simp only [decide_eq_true_eq]
  omega

lemma sortedIdxs_nil {vs : List ℚ} {nDays : Nat} {extreme : Extreme}
    (h : vs.length < nDays) : sortedIdxs vs nDays extreme = [] := by
  cases extreme <;> simp [sortedIdxs, validIdxs_nil h]

/-- Claim C10: for `n_days >= 1` and `top_n >= 1`, `find_extreme_periods`
returns at most `min top_n (N / n_days)` periods; each period covers
exactly `n_days` consecutive rows of the series; and when the series is
shorter than `n_days` the result is empty rather than an error. -/
theorem c10_period_count_and_shape (rs : List DayRec) (metric : Metric)
    (nDays : Nat) (extreme : Extreme) (topN : Nat)
    (hn : 1 ≤ nDays) (htop : 1 ≤ topN) :
    (findExtremePeriods rs metric nDays extreme topN).length ≤
      min topN (rs.length / nDays) ∧
    (∀ p ∈ findExtremePeriods rs metric nDays extreme topN,
      p.len = nDays ∧ p.startIdx + nDays = p.endIdx + 1 ∧ p.endIdx < rs.length ∧
        windowIdx nDays p.endIdx = List.range' p.startIdx nDays) ∧
    (rs.length < nDays → findExtremePeriods rs metric nDays extreme topN = []) := by
  have hlen : (rs.map (DayRec.val metric)).length = rs.length := List.length_map _ _
  have hmemsel : ∀ x ∈ greedyPeriods nDays topN
      (sortedIdxs (rs.map (DayRec.val metric)) nDays extreme) [] [],
      x < rs.length ∧ nDays ≤ x + 1 := by
    intro x hx
    rcases greedyPeriods_subset nDays topN _ [] [] x hx with h | h
    · simp at h
    · have := mem_sortedIdxs.mp h
      omega
  refine ⟨?_, ?_, ?_⟩
  · rw [findExtremePeriods, List.length_map]
    refine le_min (greedyPeriods_length nDays topN _ [] [] (by simpa using htop)) ?_
    set sel := greedyPeriods nDays topN
      (sortedIdxs (rs.map (DayRec.val metric)) nDays extreme) [] [] with hseldef
    have hpair : sel.Pairwise (windowsDisjoint nDays) :=
      greedyPeriods_pairwise nDays topN _ [] []
        (List.Pairwise.nil) (by intro s hs; simp at hs)
    have hnodup : (sel.map (windowIdx nDays)).flatten.Nodup := by
      refine List.nodup_flatten.mpr ⟨?_, ?_⟩
      · intro l hl
        obtain ⟨s, _, rfl⟩ := List.mem_map.mp hl
        exact List.nodup_range' _ _
      · exact (List.pairwise_map).mpr (hpair.imp (fun hab => hab))
    have hsub : (sel.map (windowIdx nDays)).flatten ⊆ List.range rs.length := by
      intro x hx
      obtain ⟨l, hl, hxl⟩ := List.mem_flatten.mp hx
      obtain ⟨s, hsm, rfl⟩ := List.mem_map.mp hl
      obtain ⟨hslt, hsn⟩ := hmemsel s hsm
      have hb := List.mem_range'_1.mp hxl
      refine List.mem_range.mpr ?_
      omega
    have hle : (sel.map (windowIdx nDays)).flatten.length ≤ rs.length := by
      have := (hnodup.subperm hsub).length_le
      simpa using this
    have hflat : (sel.map (windowIdx nDays)).flatten.length = sel.length * nDays := by
      rw [List.length_flatten, List.map_map]
      have heq : (sel.map (List.length ∘ windowIdx nDays)) = sel.map (fun _ => nDays) := by
        refine List.map_congr_left ?_
        intro s _
        simp [windowIdx]
      rw [heq, sum_map_const]
    rw [hflat] at hle
    exact (Nat.le_div_iff_mul_le (by omega)).mpr hle
  · intro p hp
    obtain ⟨i, hi, rfl⟩ := List.mem_map.mp hp
    obtain ⟨hilt, hin⟩ := hmemsel i hi
    refine ⟨rfl, by simp [mkPeriod]; omega, by simpa [mkPeriod] using hilt, rfl⟩
  · intro hshort
    rw [findExtremePeriods, sortedIdxs_nil (by omega)]
    rfl

/-- Witness for C10: on a 5-record series with 2-day windows the theorem
bounds the number of returned periods by min 10 (5 / 2) = 2. -/
theorem c10_witness :
    ((1 : Nat) ≤ 2 ∧ (1 : Nat) ≤ 10) ∧
    (findExtremePeriods
        [⟨⟨2020, 1, 1⟩, 60, 40, 50⟩, ⟨⟨2020, 1, 2⟩, 50, 30, 40⟩,
         ⟨⟨2020, 1, 3⟩, 40, 20, 30⟩, ⟨⟨2020, 1, 4⟩, 70, 50, 60⟩,
         ⟨⟨2020, 1, 5⟩, 30, 10, 20⟩] Metric.tavg 2 Extreme.coldest 10).length ≤
      min 10 (([⟨⟨2020, 1, 1⟩, 60, 40, 50⟩, ⟨⟨2020, 1, 2⟩, 50, 30, 40⟩,
         ⟨⟨2020, 1, 3⟩, 40, 20, 30⟩, ⟨⟨2020, 1, 4⟩, 70, 50, 60⟩,
         ⟨⟨2020, 1, 5⟩, 30, 10, 20⟩] : List DayRec).length / 2) :=
  ⟨⟨by decide, by decide⟩,
    (c10_period_count_and_shape
      [⟨⟨2020, 1, 1⟩, 60, 40, 50⟩, ⟨⟨2020, 1, 2⟩, 50, 30, 40⟩,
       ⟨⟨2020, 1, 3⟩, 40, 20, 30⟩, ⟨⟨2020, 1, 4⟩, 70, 50, 60⟩,
       ⟨⟨2020, 1, 5⟩, 30, 10, 20⟩] Metric.tavg 2 Extreme.coldest 10
      (by decide) (by decide)).1⟩

/-! ### Threshold Histogram & Frequency Engine

Embeds the per-year counting of `threshold_histogram`
(temp_analysis.py lines 314-389) and `find_extreme_event_frequency`
(lines 391-423), and the trend fit and classification of
`print_event_frequency_report` (lines 748-790). -/

/-- Rounding to one decimal place, pandas `.round(1)`: scale by 10,
round to the nearest integer, scale back.  (numpy rounds halves to even
while this rounds halves up; the two differ only at exact midpoints,
which does not affect any bound proved here.) -/
def round1 (q : ℚ) : ℚ :=
  (Rat.floor (q * 10 + 1 / 2) : ℤ) / 10

/-- One `by_year` row of `threshold_histogram`. -/
structure HistRow where
  year : Int
  daysMeetingThreshold : Nat
  totalDays : Nat
  percentage : ℚ
deriving DecidableEq, Repr

/-- The `by_year` table of `threshold_histogram`: group the
range-filtered rows by `range_year`, count rows meeting the threshold
and total rows, compute the rounded percentage; the table is returned
sorted by year descending. -/
def thresholdHistogramByYear (rs : List DayRec) (sm sd em ed : Nat)
    (metric : Metric) (thr : ℚ) (dir : Direction) : List HistRow :=
  (((rangeFilter sm sd em ed rs).map (fun p => p.2)).dedup.insertionSort
      (· ≤ ·)).reverse.map (fun y =>
    { year := y,
      daysMeetingThreshold := ((rangeFilter sm sd em ed rs).filter (fun p =>
        p.2 == y && meetsThreshold dir thr (DayRec.val metric p.1))).length,
      totalDays := ((rangeFilter sm sd em ed rs).filter (fun p => p.2 == y)).length,
      percentage := round1
        ((((rangeFilter sm sd em ed rs).filter (fun p =>
            p.2 == y && meetsThreshold dir thr (DayRec.val metric p.1))).length : ℚ) /
          (((rangeFilter sm sd em ed rs).filter (fun p => p.2 == y)).length : ℚ) * 100) })

/-- One per-year row of `find_extreme_event_frequency`. -/
structure FreqRow where
  year : Nat
  eventDays : Nat
  totalDays : Nat
  percentage : ℚ
deriving DecidableEq, Repr

/-- Embedding of `find_extreme_event_frequency`: group the whole series
by calendar year (ascending), count days meeting the threshold and
total days, compute the rounded percentage. -/
def findExtremeEventFrequency (rs : List DayRec) (metric : Metric)
    (thr : ℚ) (dir : Direction) : List FreqRow :=
  (((rs.map (fun r => r.date.year)).dedup).insertionSort (· ≤ ·)).map (fun y =>
    { year := y,
      eventDays := (rs.filter (fun r =>
        r.date.year == y && meetsThreshold dir thr (DayRec.val metric r))).length,
      totalDays := (rs.filter (fun r => r.date.year == y)).length,
      percentage := round1
        (((rs.filter (fun r =>
            r.date.year == y && meetsThreshold dir thr (DayRec.val metric r))).length : ℚ) /
          ((rs.filter (fun r => r.date.year == y)).length : ℚ) * 100) })

lemma ratFloor_eq (q : ℚ) : Rat.floor q = ⌊q⌋ := by
  rw [Rat.floor_def', ← Rat.floor_def]

lemma round1_bounds {q : ℚ} (h0 : 0 ≤ q) (h1 : q ≤ 100) :
    0 ≤ round1 q ∧ round1 q ≤ 100 := by
  have hlow : (0 : ℤ) ≤ Rat.floor (q * 10 + 1 / 2) := by
    rw [ratFloor_eq, Int.le_floor]
    push_cast
    linarith
  have hhigh : Rat.floor (q * 10 + 1 / 2) ≤ 1000 := by
    rw [ratFloor_eq]
    have hf : ⌊q * 10 + 1 / 2⌋ < 1001 := by
      rw [Int.floor_lt]
      push_cast
      linarith
    omega
  have hlowq : (0 : ℚ) ≤ ((Rat.floor (q * 10 + 1 / 2) : ℤ) : ℚ) := by
    exact_mod_cast hlow
  have hhighq : ((Rat.floor (q * 10 + 1 / 2) : ℤ) : ℚ) ≤ 1000 := by
    exact_mod_cast hhigh
  constructor
  · rw [round1]
    exact div_nonneg hlowq (by norm_num)
  · rw [round1, div_le_iff₀ (by norm_num)]
    linarith

lemma length_filter_and_le {α : Type _} (l : List α) (p q : α → Bool) :
    (l.filter (fun a => p a && q a)).length ≤ (l.filter p).length := by
  induction l with
  | nil => simp
  | cons a t ih =>
    rcases hp : p a with _ | _ <;> rcases hq : q a with _ | _ <;>
      simp only [List.filter_cons, hp, hq, Bool.false_and, Bool.true_and,
        Bool.and_self, if_true, if_false, Bool.false_eq_true, List.length_cons] <;>
      omega

lemma ratio_bounds (m t : Nat) (hmt : m ≤ t) :
    0 ≤ (m : ℚ) / (t : ℚ) * 100 ∧ (m : ℚ) / (t : ℚ) * 100 ≤ 100 := by
  constructor
  · positivity
  · rcases Nat.eq_zero_or_pos t with ht | ht
    · subst ht
      have hm : m = 0 := by omega
      subst hm
      norm_num
    · have hle : (m : ℚ) / t ≤ 1 := by
        rw [div_le_one (by exact_mod_cast ht)]
        exact_mod_cast hmt
      nlinarith

/-- Claim C7: in every result of `threshold_histogram` and
`find_extreme_event_frequency`, every per-year row has
`days_meeting_threshold` (resp. `event_days`) at most `total_days` and a
percentage between 0 and 100. -/
theorem c7_percentage_invariants (rs : List DayRec) (sm sd em ed : Nat)
    (metric : Metric) (thr : ℚ) (dir : Direction) :
    (∀ row ∈ thresholdHistogramByYear rs sm sd em ed metric thr dir,
      row.daysMeetingThreshold ≤ row.totalDays ∧
        0 ≤ row.percentage ∧ row.percentage ≤ 100) ∧
    (∀ row ∈ findExtremeEventFrequency rs metric thr dir,
      row.eventDays ≤ row.totalDays ∧
        0 ≤ row.percentage ∧ row.percentage ≤ 100) := by
  constructor
  · intro row hrow
    obtain ⟨y, _, rfl⟩ := List.mem_map.mp hrow
    have hcount := length_filter_and_le (rangeFilter sm sd em ed rs)
      (fun p => p.2 == y) (fun p => meetsThreshold dir thr (DayRec.val metric p.1))
    have hr := ratio_bounds _ _ hcount
    exact ⟨hcount, (round1_bounds hr.1 hr.2).1, (round1_bounds hr.1 hr.2).2⟩
  · intro row hrow
    obtain ⟨y, _, rfl⟩ := List.mem_map.mp hrow
    have hcount := length_filter_and_le rs
      (fun r => r.date.year == y) (fun r => meetsThreshold dir thr (DayRec.val metric r))
    have hr := ratio_bounds _ _ hcount
    exact ⟨hcount, (round1_bounds hr.1 hr.2).1, (round1_bounds hr.1 hr.2).2⟩

/-- Witness for C7: a concrete January histogram (TMIN below 32) over a
two-day series has a row (the 1995 one) satisfying the bounds. -/
theorem c7_witness :
    ∃ row ∈ thresholdHistogramByYear
        [⟨⟨1995, 1, 10⟩, 40, 30, 35⟩, ⟨⟨1995, 1, 11⟩, 45, 33, 39⟩]
        1 1 1 31 Metric.tmin 32 Direction.below,
      row.daysMeetingThreshold ≤ row.totalDays ∧
        0 ≤ row.percentage ∧ row.percentage ≤ 100 := by
  have hmem : ((1995 : Int)) ∈
      ((((rangeFilter 1 1 1 31
          [⟨⟨1995, 1, 10⟩, 40, 30, 35⟩, ⟨⟨1995, 1, 11⟩, 45, 33, 39⟩]).map
        (fun p => p.2)).dedup.insertionSort (· ≤ ·)).reverse : List Int) := by
    decide
  refine ⟨_, List.mem_map_of_mem _ hmem, ?_⟩
  exact (c7_percentage_invariants
    [⟨⟨1995, 1, 10⟩, 40, 30, 35⟩, ⟨⟨1995, 1, 11⟩, 45, 33, 39⟩]
    1 1 1 31 Metric.tmin 32 Direction.below).1 _ (List.mem_map_of_mem _ hmem)

/-! ### Trend fit of the frequency report

`print_event_frequency_report` computes
`np.polyfit(freq_data['year'], freq_data['event_days'], 1)` and
classifies the slope.  We model the degree-1 least-squares fit by its
closed form (the solution of the normal equations, which is what the
numpy fit computes) and prove it is in fact the least-squares
minimiser. -/

/-- Sum of the x coordinates. -/
def sumX (pts : List (ℚ × ℚ)) : ℚ :=
  (pts.map Prod.fst).sum

/-- Sum of the y coordinates. -/
def sumY (pts : List (ℚ × ℚ)) : ℚ :=
  (pts.map Prod.snd).sum

/-- Sum of squared x coordinates. -/
def sumXX (pts : List (ℚ × ℚ)) : ℚ :=
  (pts.map (fun p => p.1 * p.1)).sum

/-- Sum of the products x*y. -/
def sumXY (pts : List (ℚ × ℚ)) : ℚ :=
  (pts.map (fun p => p.1 * p.2)).sum

/-- Denominator of the closed-form slope; nonzero iff the x values are
not all equal. -/
def lsqDenom (pts : List (ℚ × ℚ)) : ℚ :=
  pts.length * sumXX pts - sumX pts * sumX pts

/-- The degree-1 least-squares slope `np.polyfit(x, y, 1)[0]`. -/
def polyfitSlope (pts : List (ℚ × ℚ)) : ℚ :=
  (pts.length * sumXY pts - sumX pts * sumY pts) / lsqDenom pts

/-- The degree-1 least-squares intercept `np.polyfit(x, y, 1)[1]`. -/
def polyfitIntercept (pts : List (ℚ × ℚ)) : ℚ :=
  (sumY pts - polyfitSlope pts * sumX pts) / pts.length

/-- Sum of squared errors of the affine model `y = a*x + b` on the
points. -/
def sse (pts : List (ℚ × ℚ)) (a b : ℚ) : ℚ :=
  (pts.map (fun p => (p.2 - (a * p.1 + b)) ^ 2)).sum

/-- The trend classification of `print_event_frequency_report`:
`abs(slope) < 0.05` is "stable", otherwise positive slopes are
"increasing" and the rest "decreasing". -/
def trendDesc (slope : ℚ) : String :=
  if |slope| < 1 / 20 then "stable"
  else if slope > 0 then "increasing"
  else "decreasing"

/-- The (year, event_days) points the report fits. -/
def trendPoints (rows : List FreqRow) : List (ℚ × ℚ) :=
  rows.map (fun r => ((r.year : ℚ), (r.eventDays : ℚ)))

lemma length_ne_zero_of_lsqDenom {pts : List (ℚ × ℚ)}
    (hD : lsqDenom pts ≠ 0) : (pts.length : ℚ) ≠ 0 := by
  intro h0
  have hlen : pts.length = 0 := by exact_mod_cast h0
  have hnil : pts = [] := List.length_eq_zero.mp hlen
  subst hnil
  simp [lsqDenom, sumXX, sumX] at hD

lemma normal_eq_b {pts : List (ℚ × ℚ)} (hD : lsqDenom pts ≠ 0) :
    sumY pts - polyfitSlope pts * sumX pts - polyfitIntercept pts * pts.length = 0 := by
  have hn := length_ne_zero_of_lsqDenom hD
  rw [polyfitIntercept]
  field_simp

lemma normal_eq_a {pts : List (ℚ × ℚ)} (hD : lsqDenom pts ≠ 0) :
    sumXY pts - polyfitSlope pts * sumXX pts - polyfitIntercept pts * sumX pts = 0 := by
  have hn := length_ne_zero_of_lsqDenom hD
  have hD2 : (pts.length : ℚ) * sumXX pts - sumX pts * sumX pts ≠ 0 := hD
  rw [polyfitIntercept, polyfitSlope, lsqDenom]
  field_simp
  ring

lemma sse_decomp (pts : List (ℚ × ℚ)) (a b a2 b2 : ℚ) :
    sse pts a2 b2 =
      sse pts a b + (pts.map (fun p => ((a - a2) * p.1 + (b - b2)) ^ 2)).sum
        + 2 * (a - a2) * (sumXY pts - a * sumXX pts - b * sumX pts)
        + 2 * (b - b2) * (sumY pts - a * sumX pts - b * pts.length) := by
  induction pts with
  | nil => simp [sse, sumX, sumY, sumXX, sumXY]
  | cons p l ih =>
    simp only [sse, sumX, sumY, sumXX, sumXY, List.map_cons, List.sum_cons,
      List.length_cons] at ih ⊢
    push_cast at ih ⊢
    linear_combination ih

lemma sse_min {pts : List (ℚ × ℚ)} (hD : lsqDenom pts ≠ 0) (a2 b2 : ℚ) :
    sse pts (polyfitSlope pts) (polyfitIntercept pts) ≤ sse pts a2 b2 := by
  have hdec := sse_decomp pts (polyfitSlope pts) (polyfitIntercept pts) a2 b2
  rw [normal_eq_a hD, normal_eq_b hD] at hdec
  have hsq : 0 ≤ (pts.map (fun p =>
      ((polyfitSlope pts - a2) * p.1 + (polyfitIntercept pts - b2)) ^ 2)).sum := by
    apply List.sum_nonneg
    intro x hx
    obtain ⟨p, _, rfl⟩ := List.mem_map.mp hx
    positivity
  linarith [hdec, hsq]

/-- Claim C6: the whole-series frequency query returns per-year rows
with the counted event days, total days and rounded percentage, and the
report derives a trend slope that is the genuine first-degree
least-squares fit of event_days as a function of year (it minimises the
sum of squared errors among all affine models), classified as "stable"
when its absolute value is below 0.05 and otherwise as
"increasing"/"decreasing" by its sign. -/
theorem c6_event_frequency_and_trend (rs : List DayRec) (metric : Metric)
    (thr : ℚ) (dir : Direction)
    (hD : lsqDenom (trendPoints (findExtremeEventFrequency rs metric thr dir)) ≠ 0) :
    (∀ row ∈ findExtremeEventFrequency rs metric thr dir,
      row.eventDays = (rs.filter (fun r =>
        r.date.year == row.year && meetsThreshold dir thr (DayRec.val metric r))).length ∧
      row.totalDays = (rs.filter (fun r => r.date.year == row.year)).length ∧
      row.percentage = round1 ((row.eventDays : ℚ) / (row.totalDays : ℚ) * 100) ∧
      ∃ r ∈ rs, r.date.year = row.year) ∧
    (∀ a b : ℚ,
      sse (trendPoints (findExtremeEventFrequency rs metric thr dir))
          (polyfitSlope (trendPoints (findExtremeEventFrequency rs metric thr dir)))
          (polyfitIntercept (trendPoints (findExtremeEventFrequency rs metric thr dir))) ≤
        sse (trendPoints (findExtremeEventFrequency rs metric thr dir)) a b) ∧
    (∀ s : ℚ,
      (|s| < 1 / 20 → trendDesc s = "stable") ∧
      (1 / 20 ≤ |s| → 0 < s → trendDesc s = "increasing") ∧
      (1 / 20 ≤ |s| → s < 0 → trendDesc s = "decreasing")) := by
  refine ⟨?_, fun a b => sse_min hD a b, ?_⟩
  · intro row hrow
    obtain ⟨y, hy, rfl⟩ := List.mem_map.mp hrow
    refine ⟨rfl, rfl, rfl, ?_⟩
    have hy2 : y ∈ (rs.map (fun r => r.date.year)).dedup :=
      (List.mem_insertionSort _).mp hy
    obtain ⟨r, hr, hry⟩ := List.mem_map.mp (List.mem_dedup.mp hy2)
    exact ⟨r, hr, hry⟩
  · intro s
    refine ⟨?_, ?_, ?_⟩
    · intro h
      rw [trendDesc, if_pos h]
    · intro h hs
      rw [trendDesc, if_neg (not_lt.mpr h), if_pos hs]
    · intro h hs
      rw [trendDesc, if_neg (not_lt.mpr h), if_neg (by linarith)]

/-- Witness for C6: a two-year series (years 1 and 2, one hot day in
year 1) has a nonzero fit denominator, and the fitted line minimises
the squared error against the zero model. -/
theorem c6_witness :
    lsqDenom (trendPoints (findExtremeEventFrequency
        [⟨⟨1, 6, 1⟩, 100, 70, 85⟩, ⟨⟨2, 6, 1⟩, 50, 30, 40⟩]
        Metric.tmax 60 Direction.above)) ≠ 0 ∧
    sse (trendPoints (findExtremeEventFrequency
          [⟨⟨1, 6, 1⟩, 100, 70, 85⟩, ⟨⟨2, 6, 1⟩, 50, 30, 40⟩]
          Metric.tmax 60 Direction.above))
        (polyfitSlope (trendPoints (findExtremeEventFrequency
          [⟨⟨1, 6, 1⟩, 100, 70, 85⟩, ⟨⟨2, 6, 1⟩, 50, 30, 40⟩]
          Metric.tmax 60 Direction.above)))
        (polyfitIntercept (trendPoints (findExtremeEventFrequency
          [⟨⟨1, 6, 1⟩, 100, 70, 85⟩, ⟨⟨2, 6, 1⟩, 50, 30, 40⟩]
          Metric.tmax 60 Direction.above))) ≤
      sse (trendPoints (findExtremeEventFrequency
          [⟨⟨1, 6, 1⟩, 100, 70, 85⟩, ⟨⟨2, 6, 1⟩, 50, 30, 40⟩]
          Metric.tmax 60 Direction.above)) 0 0 := by
  have htp : trendPoints (findExtremeEventFrequency
      [⟨⟨1, 6, 1⟩, 100, 70, 85⟩, ⟨⟨2, 6, 1⟩, 50, 30, 40⟩]
      Metric.tmax 60 Direction.above) = [((1 : ℚ), (1 : ℚ)), ((2 : ℚ), (0 : ℚ))] := by
    decide
  have hD : lsqDenom (trendPoints (findExtremeEventFrequency
      [⟨⟨1, 6, 1⟩, 100, 70, 85⟩, ⟨⟨2, 6, 1⟩, 50, 30, 40⟩]
      Metric.tmax 60 Direction.above)) ≠ 0 := by
    rw [htp]
    norm_num [lsqDenom, sumXX, sumX]
  exact ⟨hD, (c6_event_frequency_and_trend
    [⟨⟨1, 6, 1⟩, 100, 70, 85⟩, ⟨⟨2, 6, 1⟩, 50, 30, 40⟩]
    Metric.tmax 60 Direction.above hD).2.1 0 0⟩

/-! ### Freeze-Date Tracker

Embeds `find_freeze_dates` (temp_analysis.py lines 425-476): per year,
the last spring freeze is the latest date with `value <= threshold` and
`month < 7`, the first fall freeze the earliest date with
`value <= threshold` and `month >= 7`; the growing season length is
their timestamp difference in days when both exist. -/

/-- Lexicographic date comparison (the order of pandas timestamps). -/
def dateLe (a b : Date) : Bool :=
  a.year < b.year || (a.year == b.year &&
    (a.month < b.month || (a.month == b.month && a.day ≤ b.day)))

/-- Maximum of a list of dates (`spring['DATE'].max()`). -/
def maxDate? : List Date → Option Date
  | [] => none
  | d :: ds => some (ds.foldl (fun m x => if dateLe m x then x else m) d)

/-- Minimum of a list of dates (`fall['DATE'].min()`). -/
def minDate? : List Date → Option Date
  | [] => none
  | d :: ds => some (ds.foldl (fun m x => if dateLe x m then x else m) d)

/-- Timestamp subtraction `(first_fall - last_spring).days` for two
dates of the same calendar year — the only case `find_freeze_dates`
reaches, both endpoints being freezes of one year. -/
def subDaysSameYear (b a : Date) : Int :=
  (dayOfYear (isLeap b.year) b.month b.day : Int) -
    (dayOfYear (isLeap a.year) a.month a.day : Int)

/-- The spring freeze dates of year `y`. -/
def springFreezes (rs : List DayRec) (metric : Metric) (thr : ℚ) (y : Nat) : List Date :=
  (rs.filter (fun r => decide (DayRec.val metric r ≤ thr) && r.date.year == y &&
      decide (r.date.month < 7))).map (fun r => r.date)

/-- The fall freeze dates of year `y`. -/
def fallFreezes (rs : List DayRec) (metric : Metric) (thr : ℚ) (y : Nat) : List Date :=
  (rs.filter (fun r => decide (DayRec.val metric r ≤ thr) && r.date.year == y &&
      decide (7 ≤ r.date.month))).map (fun r => r.date)

/-- One per-year row of `find_freeze_dates`. -/
structure FreezeRow where
  year : Nat
  lastSpringFreeze : Option Date
  firstFallFreeze : Option Date
  growingSeasonDays : Option Int
  springDoy : Option Nat
  fallDoy : Option Nat
deriving DecidableEq, Repr

/-- Embedding of `find_freeze_dates`. -/
def findFreezeDates (rs : List DayRec) (metric : Metric) (thr : ℚ) : List FreezeRow :=
  (((rs.map (fun r => r.date.year)).dedup).insertionSort (· ≤ ·)).map (fun y =>
    { year := y,
      lastSpringFreeze := maxDate? (springFreezes rs metric thr y),
      firstFallFreeze := minDate? (fallFreezes rs metric thr y),
      growingSeasonDays :=
        match maxDate? (springFreezes rs metric thr y),
            minDate? (fallFreezes rs metric thr y) with
        | some a, some b => some (subDaysSameYear b a)
        | _, _ => none,
      springDoy := ((springFreezes rs metric thr y).map Date.doy).max?,
      fallDoy := ((fallFreezes rs metric thr y).map Date.doy).min? })

lemma dateLe_iff {a b : Date} : dateLe a b = true ↔
    (a.year < b.year ∨ (a.year = b.year ∧
      (a.month < b.month ∨ (a.month = b.month ∧ a.day ≤ b.day)))) := by
  simp [dateLe]

lemma dateLe_refl (a : Date) : dateLe a a = true := by
  rw [dateLe_iff]
  omega

lemma dateLe_trans {a b c : Date} (h1 : dateLe a b = true)
    (h2 : dateLe b c = true) : dateLe a c = true := by
  rw [dateLe_iff] at *
  omega

lemma foldl_max_mem :
    ∀ (ds : List Date) (d : Date),
      ds.foldl (fun m x => if dateLe m x then x else m) d ∈ d :: ds := by
  intro ds
  induction ds with
  | nil => intro d; simp
  | cons x t ih =>
    intro d
    rw [List.foldl_cons]
    have hm := ih (if dateLe d x then x else d)
    rcases List.mem_cons.mp hm with h1 | h1
    · rw [h1]
      by_cases h : dateLe d x = true
      · rw [if_pos h]
        exact List.mem_cons_of_mem _ (List.mem_cons_self _ _)
      · rw [if_neg h]
        exact List.mem_cons_self _ _
    · exact List.mem_cons_of_mem _ (List.mem_cons_of_mem _ h1)

lemma foldl_max_ge :
    ∀ (ds : List Date) (d x : Date), x ∈ d :: ds →
      dateLe x (ds.foldl (fun m y => if dateLe m y then y else m) d) = true := by
  intro ds
  induction ds with
  | nil =>
    intro d x hx
    simp only [List.mem_singleton] at hx
    subst hx
    exact dateLe_refl x
  | cons y t ih =>
    intro d x hx
    rw [List.foldl_cons]
    have hd : dateLe d (if dateLe d y then y else d) = true ∧
        dateLe y (if dateLe d y then y else d) = true := by
      by_cases h : dateLe d y = true
      · rw [if_pos h]
        exact ⟨h, dateLe_refl y⟩
      · rw [if_neg h]
        refine ⟨dateLe_refl d, ?_⟩
        rw [dateLe_iff] at *
        omega
    have hid : (if dateLe d y then y else d) ∈
        (if dateLe d y then y else d) :: t := List.mem_cons_self _ _
    rcases List.mem_cons.mp hx with rfl | hx2
    · exact dateLe_trans hd.1 (ih _ _ hid)
    · rcases List.mem_cons.mp hx2 with rfl | hx3
      · exact dateLe_trans hd.2 (ih _ _ hid)
      · exact ih _ x (List.mem_cons_of_mem _ hx3)

lemma foldl_min_mem :
    ∀ (ds : List Date) (d : Date),
      ds.foldl (fun m x => if dateLe x m then x else m) d ∈ d :: ds := by
  intro ds
  induction ds with
  | nil => intro d; simp
  | cons x t ih =>
    intro d
    rw [List.foldl_cons]
    have hm := ih (if dateLe x d then x else d)
    rcases List.mem_cons.mp hm with h1 | h1
    · rw [h1]
      by_cases h : dateLe x d = true
      · rw [if_pos h]
        exact List.mem_cons_of_mem _ (List.mem_cons_self _ _)
      · rw [if_neg h]
        exact List.mem_cons_self _ _
    · exact List.mem_cons_of_mem _ (List.mem_cons_of_mem _ h1)

lemma foldl_min_le :
    ∀ (ds : List Date) (d x : Date), x ∈ d :: ds →
      dateLe (ds.foldl (fun m y => if dateLe y m then y else m) d) x = true := by
  intro ds
  induction ds with
  | nil =>
    intro d x hx
    simp only [List.mem_singleton] at hx
    subst hx
    exact dateLe_refl x
  | cons y t ih =>
    intro d x hx
    rw [List.foldl_cons]
    have hd : dateLe (if dateLe y d then y else d) d = true ∧
        dateLe (if dateLe y d then y else d) y = true := by
      by_cases h : dateLe y d = true
      · rw [if_pos h]
        refine ⟨h, dateLe_refl y⟩
      · rw [if_neg h]
        refine ⟨dateLe_refl d, ?_⟩
        rw [dateLe_iff] at *
        omega
    have hid : (if dateLe y d then y else d) ∈
        (if dateLe y d then y else d) :: t := List.mem_cons_self _ _
    rcases List.mem_cons.mp hx with rfl | hx2
    · exact dateLe_trans (ih _ _ hid) hd.1
    · rcases List.mem_cons.mp hx2 with rfl | hx3
      · exact dateLe_trans (ih _ _ hid) hd.2
      · exact ih _ x (List.mem_cons_of_mem _ hx3)

lemma maxDate?_spec {l : List Date} {a : Date} (h : maxDate? l = some a) :
    a ∈ l ∧ ∀ x ∈ l, dateLe x a = true := by
  cases l with
  | nil => simp [maxDate?] at h
  | cons d ds =>
    rw [maxDate?] at h
    have ha : ds.foldl (fun m x => if dateLe m x then x else m) d = a := by
      simpa using h
    subst ha
    exact ⟨foldl_max_mem ds d, fun x hx => foldl_max_ge ds d x hx⟩

lemma minDate?_spec {l : List Date} {a : Date} (h : minDate? l = some a) :
    a ∈ l ∧ ∀ x ∈ l, dateLe a x = true := by
  cases l with
  | nil => simp [minDate?] at h
  | cons d ds =>
    rw [minDate?] at h
    have ha : ds.foldl (fun m x => if dateLe x m then x else m) d = a := by
      simpa using h
    subst ha
    exact ⟨foldl_min_mem ds d, fun x hx => foldl_min_le ds d x hx⟩

lemma daysBefore_succ (leap : Bool) (m : Nat) (hm : 1 ≤ m) :
    daysBefore leap (m + 1) = daysBefore leap m + daysInMonth leap m := by
  rw [daysBefore, daysBefore]
  have h1 : m + 1 - 1 = (m - 1) + 1 := by omega
  have h2 : m - 1 + 1 = m := by omega
  rw [h1, List.range_succ, List.map_append, List.sum_append]
  simp [h2]

lemma daysBefore_mono (leap : Bool) : ∀ {m m2 : Nat}, m ≤ m2 →
    daysBefore leap m ≤ daysBefore leap m2 := by
  intro m m2 h
  induction m2 with
  | zero =>
    have hm : m = 0 := by omega
    subst hm
    exact le_refl _
  | succ k ih =>
    rcases Nat.lt_or_ge m (k + 1) with h2 | h2
    · have hk : m ≤ k := by omega
      have hik := ih hk
      rcases Nat.eq_zero_or_pos k with rfl | hkpos
      · have hm : m = 0 := by omega
        subst hm
        exact le_of_eq rfl
      · rw [daysBefore_succ leap k hkpos]
        omega
    · have hm : m = k + 1 := by omega
      subst hm
      exact le_refl _

lemma doy_lt_doy (leap : Bool) {m1 d1 m2 d2 : Nat} (hm : m1 < m2)
    (hm1 : 1 ≤ m1) (hd1 : d1 ≤ daysInMonth leap m1) (hd2 : 1 ≤ d2) :
    dayOfYear leap m1 d1 < dayOfYear leap m2 d2 := by
  have h1 : daysBefore leap (m1 + 1) = daysBefore leap m1 + daysInMonth leap m1 :=
    daysBefore_succ leap m1 hm1
  have h2 : daysBefore leap (m1 + 1) ≤ daysBefore leap m2 := daysBefore_mono leap hm
  rw [dayOfYear, dayOfYear]
  omega

lemma mem_springFreezes {rs : List DayRec} {metric : Metric} {thr : ℚ}
    {y : Nat} {a : Date} (h : a ∈ springFreezes rs metric thr y) :
    (∃ r ∈ rs, r.date = a ∧ DayRec.val metric r ≤ thr) ∧
      a.year = y ∧ a.month < 7 := by
  obtain ⟨r, hr, rfl⟩ := List.mem_map.mp h
  obtain ⟨hrs, hcond⟩ := List.mem_filter.mp hr
  simp only [Bool.and_eq_true, decide_eq_true_eq, beq_iff_eq] at hcond
  exact ⟨⟨r, hrs, rfl, hcond.1.1⟩, hcond.1.2, hcond.2⟩

lemma mem_fallFreezes {rs : List DayRec} {metric : Metric} {thr : ℚ}
    {y : Nat} {b : Date} (h : b ∈ fallFreezes rs metric thr y) :
    (∃ r ∈ rs, r.date = b ∧ DayRec.val metric r ≤ thr) ∧
      b.year = y ∧ 7 ≤ b.month := by
  obtain ⟨r, hr, rfl⟩ := List.mem_map.mp h
  obtain ⟨hrs, hcond⟩ := List.mem_filter.mp hr
  simp only [Bool.and_eq_true, decide_eq_true_eq, beq_iff_eq] at hcond
  exact ⟨⟨r, hrs, rfl, hcond.1.1⟩, hcond.1.2, hcond.2⟩

/-- Claim C8: for every year row of `find_freeze_dates`,
`growing_season_days` is non-null iff both `last_spring_freeze` (the
latest freeze date with month < 7) and `first_fall_freeze` (the
earliest freeze date with month >= 7) exist for that year; when defined
it equals the day count from the spring date to the fall date and is
non-negative. -/
theorem c8_growing_season (rs : List DayRec) (metric : Metric) (thr : ℚ)
    (hvalid : ∀ r ∈ rs, validDate r.date) (row : FreezeRow)
    (hrow : row ∈ findFreezeDates rs metric thr) :
    (row.growingSeasonDays.isSome ↔
      (row.lastSpringFreeze.isSome ∧ row.firstFallFreeze.isSome)) ∧
    (∀ a, row.lastSpringFreeze = some a →
      a ∈ springFreezes rs metric thr row.year ∧
        ∀ x ∈ springFreezes rs metric thr row.year, dateLe x a = true) ∧
    (∀ b, row.firstFallFreeze = some b →
      b ∈ fallFreezes rs metric thr row.year ∧
        ∀ x ∈ fallFreezes rs metric thr row.year, dateLe b x = true) ∧
    (∀ g, row.growingSeasonDays = some g →
      ∃ a b, row.lastSpringFreeze = some a ∧ row.firstFallFreeze = some b ∧
        g = subDaysSameYear b a ∧ 0 ≤ g) := by
  obtain ⟨y, _, rfl⟩ := List.mem_map.mp hrow
  refine ⟨?_, ?_, ?_, ?_⟩
  · cases hs : maxDate? (springFreezes rs metric thr y) with
    | none => simp [hs]
    | some a =>
      cases hf : minDate? (fallFreezes rs metric thr y) with
      | none => simp [hs, hf]
      | some b => simp [hs, hf]
  · intro a ha
    have hs : maxDate? (springFreezes rs metric thr y) = some a := ha
    exact maxDate?_spec hs
  · intro b hb
    have hf : minDate? (fallFreezes rs metric thr y) = some b := hb
    exact minDate?_spec hf
  · intro g hg
    cases hs : maxDate? (springFreezes rs metric thr y) with
    | none => simp [hs] at hg
    | some a =>
      cases hf : minDate? (fallFreezes rs metric thr y) with
      | none => simp [hs, hf] at hg
      | some b =>
        have hgv : g = subDaysSameYear b a := by
          simp [hs, hf] at hg
          exact hg.symm
        refine ⟨a, b, by simp [hs], by simp [hs, hf], hgv, ?_⟩
        obtain ⟨⟨ra, hra, hrad, _⟩, hay, ham⟩ := mem_springFreezes (maxDate?_spec hs).1
        obtain ⟨⟨rb, hrb, hrbd, _⟩, hby, hbm⟩ := mem_fallFreezes (minDate?_spec hf).1
        have hva : validDate a := hrad ▸ hvalid ra hra
        have hvb : validDate b := hrbd ▸ hvalid rb hrb
        obtain ⟨ham1, _, _, had⟩ := hva
        obtain ⟨_, _, hbd1, _⟩ := hvb
        have hyy : a.year = b.year := by omega
        have hlt : dayOfYear (isLeap a.year) a.month a.day <
            dayOfYear (isLeap a.year) b.month b.day :=
          doy_lt_doy (isLeap a.year) (by omega) ham1 had hbd1
        rw [hgv, subDaysSameYear, ← hyy]
        omega

/-- Witness for C8: a 2020 series with a spring freeze on Mar 1 and a
fall freeze on Oct 1 (TMIN threshold 32): its year row has growing
season 275 - 61 = 214 days, non-negative. -/
theorem c8_witness :
    (∀ r ∈ [(⟨⟨2020, 3, 1⟩, 40, 30, 35⟩ : DayRec), ⟨⟨2020, 10, 1⟩, 50, 28, 39⟩],
      validDate r.date) ∧
    (∀ g, (⟨2020, some ⟨2020, 3, 1⟩, some ⟨2020, 10, 1⟩, some 214,
        some 61, some 275⟩ : FreezeRow).growingSeasonDays = some g →
      ∃ a b, (⟨2020, some ⟨2020, 3, 1⟩, some ⟨2020, 10, 1⟩, some 214,
          some 61, some 275⟩ : FreezeRow).lastSpringFreeze = some a ∧
        (⟨2020, some ⟨2020, 3, 1⟩, some ⟨2020, 10, 1⟩, some 214,
          some 61, some 275⟩ : FreezeRow).firstFallFreeze = some b ∧
        g = subDaysSameYear b a ∧ 0 ≤ g) := by
  refine ⟨by decide, ?_⟩
  exact (c8_growing_season
    [⟨⟨2020, 3, 1⟩, 40, 30, 35⟩, ⟨⟨2020, 10, 1⟩, 50, 28, 39⟩]
    Metric.tmin 32 (by decide)
    ⟨2020, some ⟨2020, 3, 1⟩, some ⟨2020, 10, 1⟩, some 214, some 61, some 275⟩
    (by decide)).2.2.2

/-! ### TAVG normalisation at load time

Embeds lines 64-66 of temp_analysis.py: after dropping rows with
missing TMAX/TMIN, `if 'TAVG' not in self.df.columns or
self.df['TAVG'].isna().any(): self.df['TAVG'] = (self.df['TMAX'] +
self.df['TMIN']) / 2`. -/

/-- A raw input row after the TMAX/TMIN dropna: the optional TAVG cell
may still be missing. -/
structure RawRec where
  date : Date
  tmax : ℚ
  tmin : ℚ
  tavg : Option ℚ
deriving DecidableEq, Repr

/-- The TAVG column after loading.  `hasTavgCol = false` models an
absent TAVG column (its cells are then irrelevant); otherwise the cells
are the `tavg` fields.  The whole column is recomputed as
`(TMAX + TMIN) / 2` when the column is absent or any cell is missing. -/
def tavgAfterLoad (hasTavgCol : Bool) (rs : List RawRec) : List ℚ :=
  if !hasTavgCol || rs.any (fun r => r.tavg.isNone) then
    rs.map (fun r => (r.tmax + r.tmin) / 2)
  else
    rs.map (fun r => r.tavg.getD 0)

/-- Claim C9: at load time, if the TAVG column is absent or has at
least one missing value, TAVG is recomputed as `(TMAX + TMIN) / 2` for
every record — including records whose original TAVG was present; if
TAVG is present with no missing values it is left unchanged (every cell
keeps its original value). -/
theorem c9_tavg_normalisation (hasTavgCol : Bool) (rs : List RawRec) :
    ((hasTavgCol = false ∨ ∃ r ∈ rs, r.tavg = none) →
      tavgAfterLoad hasTavgCol rs = rs.map (fun r => (r.tmax + r.tmin) / 2)) ∧
    (hasTavgCol = true → (∀ r ∈ rs, r.tavg ≠ none) →
      tavgAfterLoad hasTavgCol rs = rs.map (fun r => r.tavg.getD 0) ∧
        ∀ r ∈ rs, some (r.tavg.getD 0) = r.tavg) := by
  constructor
  · intro h
    have hcond : (!hasTavgCol || rs.any (fun r => r.tavg.isNone)) = true := by
      rcases h with h | ⟨r, hr, hnone⟩
      · rw [h]
        rfl
      · refine Bool.or_eq_true_iff.mpr (Or.inr ?_)
        exact List.any_eq_true.mpr ⟨r, hr, by rw [hnone]; rfl⟩
    rw [tavgAfterLoad, if_pos hcond]
  · intro hcol hall
    have hcond : (!hasTavgCol || rs.any (fun r => r.tavg.isNone)) = false := by
      rw [hcol]
      simp only [Bool.not_true, Bool.false_or, List.any_eq_false]
      intro r hr
      rcases hx : r.tavg with _ | v
      · exact absurd hx (hall r hr)
      · simp
    refine ⟨by rw [tavgAfterLoad, hcond]; rfl, ?_⟩
    intro r hr
    rcases hx : r.tavg with _ | v
    · exact absurd hx (hall r hr)
    · rfl

/-- Witness for C9: a two-record series with a fully populated TAVG
column is left unchanged; the same series with one missing TAVG cell is
fully recomputed. -/
theorem c9_witness :
    ((true = false ∨ ∃ r ∈ [(⟨⟨2020, 1, 1⟩, 50, 30, some 41⟩ : RawRec),
        ⟨⟨2020, 1, 2⟩, 60, 40, none⟩], r.tavg = none) →
      tavgAfterLoad true [(⟨⟨2020, 1, 1⟩, 50, 30, some 41⟩ : RawRec),
          ⟨⟨2020, 1, 2⟩, 60, 40, none⟩] =
        [(⟨⟨2020, 1, 1⟩, 50, 30, some 41⟩ : RawRec),
          ⟨⟨2020, 1, 2⟩, 60, 40, none⟩].map (fun r => (r.tmax + r.tmin) / 2)) ∧
    (tavgAfterLoad true [(⟨⟨2020, 1, 1⟩, 50, 30, some 41⟩ : RawRec),
        ⟨⟨2020, 1, 2⟩, 60, 40, some 49⟩] =
      [(⟨⟨2020, 1, 1⟩, 50, 30, some 41⟩ : RawRec),
        ⟨⟨2020, 1, 2⟩, 60, 40, some 49⟩].map (fun r => r.tavg.getD 0)) :=
  ⟨(c9_tavg_normalisation true
      [⟨⟨2020, 1, 1⟩, 50, 30, some 41⟩, ⟨⟨2020, 1, 2⟩, 60, 40, none⟩]).1,
    ((c9_tavg_normalisation true
      [⟨⟨2020, 1, 1⟩, 50, 30, some 41⟩, ⟨⟨2020, 1, 2⟩, 60, 40, some 49⟩]).2
      rfl (by decide)).1⟩

end TempAnalysis
